/-
Verification of the ICESat-2 ATL03 photon-cloud subsetting engine
(Atl03Reader.cpp).  The C++ pipeline is shallowly embedded: arrays become
lists, doubles become rationals, fallible array accesses and beam-fatal
throws become `Except`, and each `while` loop becomes a structural
recursion (with an explicit fuel argument where the C loop's bound is a
runtime quantity).  Constants and helpers that live in headers absent from
the repository snapshot (Icesat2Parms.h, StringLib) are modelled from the
specification and marked as such.
-/
import Mathlib

namespace Atl03

/-! ## Constants

Values of the `Icesat2Parms` enumerations used by Atl03Reader.cpp.  The
header defining them is not part of the snapshot, so they are modelled
from the specification. -/

/-- Modelled from the spec: lowest valid ATL03 signal confidence
(`Icesat2Parms::CNF_POSSIBLE_TEP`); the spec gives the valid range
[`CNF_POSSIBLE_TEP`, `CNF_SURFACE_HIGH`] and a table indexed by
`confidence + SIGNAL_CONF_OFFSET`. -/
def CNF_POSSIBLE_TEP : Int := -2

/-- Modelled from the spec: highest valid ATL03 signal confidence
(`Icesat2Parms::CNF_SURFACE_HIGH`). -/
def CNF_SURFACE_HIGH : Int := 4

/-- Modelled from the spec: offset added to a signal confidence to index
the acceptance table (`Icesat2Parms::SIGNAL_CONF_OFFSET`). -/
def SIGNAL_CONF_OFFSET : Int := 2

/-- Modelled from the spec: lowest valid photon quality
(`Icesat2Parms::QUALITY_NOMINAL`). -/
def QUALITY_NOMINAL : Int := 0

/-- Modelled from the spec: highest valid photon quality
(`Icesat2Parms::QUALITY_POSSIBLE_TEP`). -/
def QUALITY_POSSIBLE_TEP : Int := 3

/-- Modelled from the spec: number of ATL08 photon classes
(`Icesat2Parms::NUM_ATL08_CLASSES`); valid classes are `[0, 5)`. -/
def NUM_ATL08_CLASSES : Int := 5

/-- Modelled from the spec: `Icesat2Parms::ATL08_UNCLASSIFIED = 0`
(the spec states "middle is `ATL08_UNCLASSIFIED=0`"). -/
def ATL08_UNCLASSIFIED : Nat := 0

/-- Modelled from the spec: `Icesat2Parms::ATL08_TOP_OF_CANOPY`; the ATL08
product assigns `classed_pc_flag = 3` to top-of-canopy photons. -/
def ATL08_TOP_OF_CANOPY : Nat := 3

/-- One ATL08 land segment covers exactly 5 ATL03 segments
(`Atl03Reader::Atl08Class::NUM_ATL03_SEGS_IN_ATL08_SEG`, value stated in
the spec). -/
def NUM_ATL03_SEGS_IN_ATL08_SEG : Int := 5

/-! ## Resource name parser (`Atl03Reader::parseResource`) -/

/-- Which of the three fixed substrings failed to parse; the source throws
a distinct `RunTimeException` per field. -/
inductive ParseFail where
  | rgt
  | cycle
  | region
deriving Repr, DecidableEq

/-- Modelled from the spec: `StringLib::str2long` (absent from the
snapshot) parses a base-10 integer and reports failure; per the spec a
fixed substring parses iff it is numeric.  Numeric here means a non-empty
all-digit string. -/
def str2long (s : List Char) : Option Nat :=
  if s ≠ [] ∧ s.all Char.isDigit then
    some (s.foldl (fun a c => a * 10 + (c.toNat - 48)) 0)
  else
    none

/-- `Atl03Reader::parseResource` (Atl03Reader.cpp:1756).  Resource strings
shorter than 29 characters yield zeros without error; otherwise positions
21-24, 25-26 and 27-28 are parsed base-10 as rgt, cycle, region. -/
def parseResource (r : List Char) : Except ParseFail (Nat × Nat × Nat) :=
  if r.length < 29 then .ok (0, 0, 0)
  else
    match str2long ((r.drop 21).take 4) with
    | none => .error .rgt
    | some rgt =>
      match str2long ((r.drop 25).take 2) with
      | none => .error .cycle
      | some cycle =>
        match str2long ((r.drop 27).take 2) with
        | none => .error .region
        | some region => .ok (rgt, cycle, region)

/-- Spec-side numeric predicate: a substring is numeric when it consists of
digits (and is non-empty). -/
def isNumeric (s : List Char) : Prop := s ≠ [] ∧ s.all Char.isDigit

instance (s : List Char) : Decidable (isNumeric s) := by
  unfold isNumeric; infer_instance

/-- Spec-side base-10 value of a digit string, via `Nat.ofDigits`
(least-significant digit first). -/
def base10 (s : List Char) : Nat :=
  Nat.ofDigits 10 ((s.map (fun c => c.toNat - 48)).reverse)

/-! ## Region cropper (`Atl03Reader::Region`)

The geometric inclusion test (`MathLib::inpoly` after projection, or
`GeoRaster::includes`) is an external collaborator per the spec; it is
abstracted as a per-segment boolean, zipped with `segment_ph_cnt`. -/

/-- The four crop outputs of `Atl03Reader::Region`. -/
structure RegionCrop where
  first_segment : Nat
  num_segments : Nat
  first_photon : Nat
  num_photons : Nat
deriving Repr, DecidableEq

/-- Loop state of `Region::polyregion` (Atl03Reader.cpp:317). -/
structure PolyState where
  found : Bool
  segment : Nat
  first_segment : Nat
  first_photon : Nat
  num_photons : Nat
deriving Repr, DecidableEq

/-- The scan loop of `Region::polyregion` (Atl03Reader.cpp:322-369): skip
segments until the first included non-empty one (accumulating skipped
photon counts into `first_photon`), then accumulate `num_photons` until
the first non-included non-empty segment breaks the loop. -/
def polyLoop : List (Bool × Nat) → PolyState → PolyState
  | [], st => st
  | (inclusion, c) :: rest, st =>
    if ¬ st.found then
      if inclusion ∧ c ≠ 0 then
        polyLoop rest { st with found := true, first_segment := st.segment,
                                num_photons := c, segment := st.segment + 1 }
      else
        polyLoop rest { st with first_photon := st.first_photon + c,
                                segment := st.segment + 1 }
    else
      if ¬ inclusion ∧ c ≠ 0 then
        st
      else
        polyLoop rest { st with num_photons := st.num_photons + c,
                                segment := st.segment + 1 }

/-- `Region::polyregion` (Atl03Reader.cpp:317).  Returns `none` when no
included non-empty segment exists (the constructor then raises
`EMPTY_SUBSET`); otherwise `num_segments = segment - first_segment` where
`segment` is the break position. -/
def polyregion (incl : List Bool) (cnt : List Nat) : Option RegionCrop :=
  let st := polyLoop (incl.zip cnt) ⟨false, 0, 0, 0, 0⟩
  if st.found then
    some ⟨st.first_segment, st.segment - st.first_segment,
          st.first_photon, st.num_photons⟩
  else none

/-- Loop state of `Region::rasterregion` (Atl03Reader.cpp:381).  The
`mask` models the `inclusion_mask` allocation (written only at non-empty
segments; unwritten entries are modelled as `false`). -/
structure RasterState where
  found : Bool
  segment : Nat
  first_segment : Nat
  last_segment : Nat
  first_photon : Nat
  curr_num_photons : Nat
  num_photons : Nat
  mask : List Bool
deriving Repr, DecidableEq

/-- The scan loop of `Region::rasterregion` (Atl03Reader.cpp:400-449):
the first included non-empty segment starts the crop; afterwards the scan
continues to the end of the array, moving `last_segment` and snapping
`num_photons` to the running sum each time an included non-empty segment
is found. -/
def rasterLoop : List (Bool × Nat) → RasterState → RasterState
  | [], st => st
  | (inclusion, c) :: rest, st =>
    if c ≠ 0 then
      let st1 := { st with mask := st.mask.set st.segment inclusion }
      if ¬ st1.found then
        if inclusion then
          rasterLoop rest { st1 with found := true, first_segment := st1.segment,
                                     last_segment := st1.segment,
                                     curr_num_photons := c, num_photons := c,
                                     segment := st1.segment + 1 }
        else
          rasterLoop rest { st1 with first_photon := st1.first_photon + c,
                                     segment := st1.segment + 1 }
      else
        let st2 := { st1 with curr_num_photons := st1.curr_num_photons + c }
        if inclusion then
          rasterLoop rest { st2 with num_photons := st2.curr_num_photons,
                                     last_segment := st2.segment,
                                     segment := st2.segment + 1 }
        else
          rasterLoop rest { st2 with segment := st2.segment + 1 }
    else
      rasterLoop rest { st with segment := st.segment + 1 }

/-- `Region::rasterregion` (Atl03Reader.cpp:381).  Empty input or no
included non-empty segment yields `none`; otherwise
`num_segments = last_segment - first_segment + 1`. -/
def rasterregion (incl : List Bool) (cnt : List Nat) : Option RegionCrop :=
  if cnt.length = 0 then none
  else
    let st := rasterLoop (incl.zip cnt)
      ⟨false, 0, 0, 0, 0, 0, 0, List.replicate cnt.length false⟩
    if st.found then
      some ⟨st.first_segment, st.last_segment - st.first_segment + 1,
            st.first_photon, st.num_photons⟩
    else none

/-! ## Shared error type

Beam-fatal conditions in `subsettingThread` and its helpers: the explicit
range-check `RunTimeException`s and out-of-bounds array reads (undefined
behaviour in C++, surfaced as an error by the embedding). -/

inductive PipeErr where
  | oob
  | badSignalConf
  | badQuality
  | badAtl08Class
deriving Repr, DecidableEq

deriving instance DecidableEq for Except

/-- Lift a checked array read into the error monad (`none` = the C++ code
read out of bounds). -/
def ofOpt : Option α → Except PipeErr α
  | some a => .ok a
  | none => .error .oob

/-! ## Per-photon filter of the extent state machine
(Atl03Reader.cpp:1289-1344) -/

/-- The acceptance parameters of the filter: `parms->atl03_cnf`,
`parms->quality_ph`, `parms->atl08_class` (C arrays, modelled as total
tables — the code indexes them only after the range checks) and
`parms->yapc.score`. -/
structure FilterParms where
  atl03_cnf : Int → Bool
  quality_ph : Int → Bool
  atl08_class : Int → Bool
  yapc_score : Nat

/-- The per-photon data consulted by the filter: `atl03.signal_conf_ph`,
`atl03.quality_ph`, `atl08.classification` (when the ATL08 stage ran),
`yapc.score` (when YAPC ran) and `region.inclusion_ptr` (when raster
cropping ran, indexed by segment). -/
structure PhotonArrays where
  signal_conf_ph : List Int
  quality_arr : List Int
  atl08_cls : Option (List Nat)
  yapc_arr : Option (List Nat)
  inclusion : Option (List Bool)

/-- The filter `do { ... } while(false)` block of `subsettingThread`
(Atl03Reader.cpp:1287-1402) restricted to its accept/reject/throw logic:
range-check then table-check the signal confidence, the quality, the ATL08
class (if present), then the YAPC score (if present) and the raster
inclusion mask (if present).  `.ok true` means the photon is added to the
extent; `.ok false` models an early `break`. -/
def regionCheck (d : PhotonArrays) (seg : Nat) : Except PipeErr Bool :=
  match d.inclusion with
  | some m =>
    match m.get? seg with
    | none => .error .oob
    | some b => if ¬ b then .ok false else .ok true
  | none => .ok true

/-- The "Check and Set YAPC Score" step (Atl03Reader.cpp:1326-1335)
followed by the region check. -/
def yapcCheck (P : FilterParms) (d : PhotonArrays) (ph seg : Nat) :
    Except PipeErr Bool :=
  match d.yapc_arr with
  | some ys =>
    match ys.get? ph with
    | none => .error .oob
    | some s => if s < P.yapc_score then .ok false else regionCheck d seg
  | none => regionCheck d seg

/-- The filter `do { ... } while(false)` block of `subsettingThread`
(Atl03Reader.cpp:1287-1402) restricted to its accept/reject/throw logic:
range-check then table-check the signal confidence, the quality, the ATL08
class (if present), then the YAPC score (if present) and the raster
inclusion mask (if present).  `.ok true` means the photon is added to the
extent; `.ok false` models an early `break`. -/
def photonChecks (P : FilterParms) (d : PhotonArrays) (ph seg : Nat) :
    Except PipeErr Bool :=
  match d.signal_conf_ph.get? ph with
  | none => .error .oob
  | some atl03_cnf =>
    if atl03_cnf < CNF_POSSIBLE_TEP ∨ CNF_SURFACE_HIGH < atl03_cnf then
      .error .badSignalConf
    else if ¬ P.atl03_cnf (atl03_cnf + SIGNAL_CONF_OFFSET) then .ok false
    else
      match d.quality_arr.get? ph with
      | none => .error .oob
      | some quality =>
        if quality < QUALITY_NOMINAL ∨ QUALITY_POSSIBLE_TEP < quality then
          .error .badQuality
        else if ¬ P.quality_ph quality then .ok false
        else
          match d.atl08_cls with
          | some cls =>
            (match cls.get? ph with
             | none => .error .oob
             | some c =>
               if (c : Int) < 0 ∨ NUM_ATL08_CLASSES ≤ (c : Int) then
                 .error .badAtl08Class
               else if ¬ P.atl08_class c then .ok false
               else yapcCheck P d ph seg)
          | none => yapcCheck P d ph seg

/-- Spec-side acceptance predicate (the claim's "all acceptance tables
pass at that photon"): the confidence table at `cnf + SIGNAL_CONF_OFFSET`,
the quality table, the ATL08 class table when classification is present,
`yapc_score ≥ parms->yapc.score` when YAPC is present, and the
inclusion-mask bit of the photon's segment under raster cropping. -/
def photonAccepted (P : FilterParms) (d : PhotonArrays) (ph seg : Nat) : Prop :=
  (∃ cnf, d.signal_conf_ph.get? ph = some cnf ∧
    P.atl03_cnf (cnf + SIGNAL_CONF_OFFSET) = true) ∧
  (∃ q, d.quality_arr.get? ph = some q ∧ P.quality_ph q = true) ∧
  (∀ cls, d.atl08_cls = some cls →
    ∃ c, cls.get? ph = some c ∧ P.atl08_class c = true) ∧
  (∀ ys, d.yapc_arr = some ys →
    ∃ s, ys.get? ph = some s ∧ P.yapc_score ≤ s) ∧
  (∀ m, d.inclusion = some m → m.get? seg = some true)

/-! ## Extent state machine (`subsettingThread`, Atl03Reader.cpp:1247-1418)

One pass of the inner photon loop of one extent. -/

/-- The extent parameters of `Icesat2Parms` used by the inner loop. -/
structure ExtentParms extends FilterParms where
  dist_in_seg : Bool
  extent_length : ℚ
  extent_step : ℚ

/-- The arrays consulted by the inner loop beyond the filter arrays. -/
structure ExtentData extends PhotonArrays where
  segment_ph_cnt : List Nat
  segment_dist_x : List ℚ
  dist_ph_along : List ℚ

/-- The loop state of one extent (a slice of `TrackState` plus the loop
locals of Atl03Reader.cpp:1214-1218).  `extent_photons` records, for each
accepted photon, the pair (photon index, segment index). -/
structure LoopState where
  current_photon : Nat
  current_segment : Nat
  current_count : Nat
  ph_in : Nat
  seg_in : Nat
  seg_ph : Nat
  start_distance : ℚ
  extent_segment : Nat
  extent_complete : Bool
  step_complete : Bool
  track_complete : Bool
  extent_photons : List (Nat × Nat)
deriving Repr, DecidableEq

/-- The `while` loop "Go to Photon's Segment" (Atl03Reader.cpp:1252-1257):
advance `current_segment` while `current_count > segment_ph_cnt[current_segment]`,
resetting `current_count` to 1.  Fuel-structural; callers pass fuel at
least `cnt.length`. -/
def gotoSegment (cnt : List Nat) : Nat → Nat → Nat → Nat × Nat
  | 0, cs, cc => (cs, cc)
  | fuel + 1, cs, cc =>
    match cnt.get? cs with
    | some c => if c < cc then gotoSegment cnt fuel (cs + 1) 1 else (cs, cc)
    | none => (cs, cc)

/-- The end of one iteration of the inner photon loop
(Atl03Reader.cpp:1409-1417): commit the relocated segment cursor, advance
to the next photon, and end the beam when the photon axis is exhausted. -/
def advancePhoton (d : ExtentData) (st : LoopState) (cs cc ph : Nat) :
    LoopState :=
  let st3 := { st with current_segment := cs, current_count := cc,
                       current_photon := ph + 1 }
  if d.dist_ph_along.length ≤ ph + 1 then { st3 with track_complete := true }
  else st3

/-- One iteration of the inner photon loop (Atl03Reader.cpp:1248-1417):
bump and relocate the count/segment cursor, stop the beam when the photon
has no segment, compute `x_atc`, latch the next extent's first photon
(one-shot), filter the photon when inside the extent's length, then
advance to the next photon, ending the beam at the photon axis' end. -/
def extentIter (P : ExtentParms) (d : ExtentData) (st : LoopState) :
    Except PipeErr LoopState :=
  let cc0 := st.current_count + 1
  let scc := gotoSegment d.segment_ph_cnt d.segment_ph_cnt.length
    st.current_segment cc0
  let cs := scc.1
  let cc := scc.2
  if d.segment_dist_x.length ≤ cs then
    .ok { st with current_segment := cs, current_count := cc,
                  track_complete := true }
  else
    match d.segment_dist_x.get? cs, d.dist_ph_along.get? st.current_photon with
    | some sdx, some dpa =>
      let delta_distance := sdx - st.start_distance
      let x_atc := delta_distance + dpa
      let along_track_segments : Int := (cs : Int) - (st.extent_segment : Int)
      let st1 :=
        if ¬ st.step_complete ∧
           ((¬ P.dist_in_seg ∧ P.extent_step ≤ x_atc) ∨
            (P.dist_in_seg ∧ ⌊P.extent_step⌋ ≤ along_track_segments)) then
          { st with ph_in := st.current_photon, seg_in := cs,
                    seg_ph := cc - 1, step_complete := true }
        else st
      if (¬ P.dist_in_seg ∧ x_atc < P.extent_length) ∨
         (P.dist_in_seg ∧ (along_track_segments : ℚ) < P.extent_length) then
        match photonChecks P.toFilterParms d.toPhotonArrays
            st.current_photon cs with
        | .error e => .error e
        | .ok keep =>
          if keep then
            .ok (advancePhoton d { st1 with
              extent_photons := st1.extent_photons ++ [(st.current_photon, cs)] }
              cs cc st.current_photon)
          else
            .ok (advancePhoton d st1 cs cc st.current_photon)
      else
        .ok (advancePhoton d { st1 with extent_complete := true }
          cs cc st.current_photon)
    | _, _ => .error .oob

/-- The inner photon loop of one extent
(`while(!extent_complete || !step_complete)`, Atl03Reader.cpp:1248),
fuel-structural; the two `break` sites both set `track_complete`. -/
def extentLoop (P : ExtentParms) (d : ExtentData) :
    Nat → LoopState → Except PipeErr LoopState
  | 0, st => .ok st
  | fuel + 1, st =>
    if st.extent_complete ∧ st.step_complete then .ok st
    else
      match extentIter P d st with
      | .error e => .error e
      | .ok st' =>
        if st'.track_complete then .ok st'
        else extentLoop P d fuel st'

/-! ## Background rate (`Atl03Reader::calculateBackground`,
Atl03Reader.cpp:1563) -/

/-- The scan loop of `calculateBackground` (Atl03Reader.cpp:1566-1595):
advance the cursor while the current background time precedes the
segment's time; on the first sample at or past it, interpolate with the
previous sample (or take `bckgrd_rate[0]` when there is none).  Returns
the rate and the final cursor; `none` models an out-of-bounds read.
Fuel-structural; `calculateBackground` passes exactly the remaining loop
bound. -/
def calcBgLoop (bt rate : List ℚ) (segTime : ℚ) :
    Nat → Nat → ℚ → Option (ℚ × Nat)
  | 0, cursor, bg =>
    if cursor < rate.length then none else some (bg, cursor)
  | fuel + 1, cursor, bg =>
    if cursor < rate.length then do
      let currT ← bt.get? cursor
      if segTime ≤ currT then
        if 0 < cursor then do
          let prevT ← bt.get? (cursor - 1)
          let prevR ← rate.get? (cursor - 1)
          let currR ← rate.get? cursor
          some (((currR - prevR) / (currT - prevT)) * (segTime - prevT)
                  + prevR, cursor)
        else do
          let r0 ← rate.get? 0
          some (r0, cursor)
      else
        calcBgLoop bt rate segTime fuel (cursor + 1) bg
    else
      some (bg, cursor)

/-- `Atl03Reader::calculateBackground` (Atl03Reader.cpp:1563): the rate is
initialised to `bckgrd_rate[bckgrd_rate.size - 1]` before the scan (an
out-of-bounds read when the array is empty), and the scan starts at the
persistent cursor `bckgrd_in = c0`. -/
def calculateBackground (bt rate : List ℚ) (segTime : ℚ) (c0 : Nat) :
    Option (ℚ × Nat) := do
  let init ← rate.get? (rate.length - 1)
  calcBgLoop bt rate segTime (rate.length - c0) c0 init

/-! ## YAPC V2 (`Atl03Reader::YapcScore::yapcV2`, Atl03Reader.cpp:830) -/

/-- The spread scan of `yapcV2` (Atl03Reader.cpp:876-890): running
min/max of height and along-track distance, seeded from photon 0 and
folded over photons `1..N-1` of the whole photon axis.  Returns
`(hspread, xspread)`; `none` models an out-of-bounds read. -/
def yapcV2Spread (hs xs : List ℚ) (N : Nat) : Option (ℚ × ℚ) := do
  let h0 ← hs.get? 0
  let x0 ← xs.get? 0
  let acc ← (List.range' 1 (N - 1)).foldlM
    (fun (a : ℚ × ℚ × ℚ × ℚ) n => do
      let h ← hs.get? n
      let x ← xs.get? n
      pure (if h < a.1 then h else a.1,
            if a.2.1 < h then h else a.2.1,
            if x < a.2.2.1 then x else a.2.2.1,
            if a.2.2.2 < x then x else a.2.2.2))
    (h0, h0, x0, x0)
  some (acc.2.1 - acc.1, acc.2.2.2 - acc.2.2.1)

/-- The `knn` computation of `yapcV2` (Atl03Reader.cpp:869-870):
`knn = (settings->knn != 0) ? settings->knn : MAX(1, (sqrt(N)+0.5)/2)`
then `knn = MIN(knn, MAX_KNN)` with `MAX_KNN = 25`.  The default branch's
floating-point expression is abstracted as `defaultKnn`. -/
def yapcV2UsedKnn (settingsKnn : Int) (defaultKnn : Int) : Int :=
  min (if settingsKnn ≠ 0 then settingsKnn else defaultKnn) 25

/-- Spec-side characterisation of the minimum and maximum of the values at
photon indices `[a, b)`: both are attained in the band and bound every
value in it. -/
def bandMinMax (vs : List ℚ) (a b : Nat) (mn mx : ℚ) : Prop :=
  (∃ i, a ≤ i ∧ i < b ∧ vs.get? i = some mn) ∧
  (∃ i, a ≤ i ∧ i < b ∧ vs.get? i = some mx) ∧
  (∀ i v, a ≤ i → i < b → vs.get? i = some v → mn ≤ v ∧ v ≤ mx)

/-- Spec-side spread of the values at photon indices `[a, b)`: max minus
min over the band (the claim's "computed over the photons of segment s's
center band" with `a = ph_c0`, `b = ph_c1`). -/
def isBandSpread (vs : List ℚ) (a b : Nat) (sp : ℚ) : Prop :=
  ∃ mn mx, bandMinMax vs a b mn mx ∧ sp = mx - mn

/-! ## ATL08 classifier join (`Atl03Reader::Atl08Class::classify`,
Atl03Reader.cpp:642) -/

/-- One ATL08 signal-photon row: the parallel arrays
`signal_photons/ph_segment_id`, `classed_pc_indx`, `classed_pc_flag` and
(PhoREAL) `ph_h`, share one cursor `atl08_photon`, and are modelled as one
list of rows. -/
structure Atl08Row where
  seg : Int
  indx : Int
  flag : Nat
  ph_h : ℚ
deriving Repr, DecidableEq

/-- One ATL08 land-segment row: the parallel arrays
`land_segments/segment_id_beg`, `segment_landcover`, `segment_snowcover`
share the cursor `atl08_segment_index`. -/
structure LandRow where
  beg : Int
  landcover : Nat
  snowcover : Nat
deriving Repr, DecidableEq

/-- The `Atl08Class` configuration: the stage flags, the ABoVE switch, the
beam selector, and `Icesat2Parms::getSpotNumber` — absent from the
snapshot and therefore modelled from the spec as an abstract function of
spacecraft orientation and `(track, pair)`. -/
structure ClassifyParms where
  phoreal : Bool
  ancillary : Bool
  above_classifier : Bool
  track : Nat
  pr : Nat
  spotNumber : Nat → Nat → Nat → Nat

/-- The data consulted by `classify`: ATL03 per-segment ids and photon
counts, `sc_orient`, `solar_elevation`, `signal_conf_ph`, and the ATL08
signal-photon and land-segment rows. -/
structure ClassifyData where
  segment_id : List Int
  segment_ph_cnt : List Nat
  sc_orient : List Nat
  solar_elevation : List ℚ
  signal_conf_ph : List Int
  rows : List Atl08Row
  land : List LandRow

/-- Cursor state of `classify`: `atl03_photon`, and the suffixes of the
row lists that start at the cursors `atl08_photon` and
`atl08_segment_index`.  `cls` accumulates `classification[...]` in photon
order. -/
structure ClassifyState where
  atl03_photon : Nat
  rows : List Atl08Row
  land : List LandRow
  cls : List Nat
deriving Repr, DecidableEq

/-- The ABoVE reclassifier (Atl03Reader.cpp:733-746), reached for an
ATL08-matched photon whose class is not `TOP_OF_CANOPY` when
`phoreal.above_classifier` is set: reassign to `TOP_OF_CANOPY` iff the
solar elevation read at index `atl03_segment` — the segment *id* `g`, as
in the source — is ≤ 5, the spot number is 1, 3 or 5, the photon's signal
confidence is `CNF_SURFACE_HIGH`, and the relief lies in `[0, 35)`. -/
def aboveFlag (P : ClassifyParms) (d : ClassifyData) (g : Int) (ph : Nat)
    (relief : ℚ) (flag : Nat) : Except PipeErr Nat :=
  match d.sc_orient.get? 0 with
  | none => .error .oob
  | some so =>
    let spot := P.spotNumber so P.track P.pr
    if 0 ≤ g then
      match d.solar_elevation.get? g.toNat with
      | none => .error .oob
      | some solar =>
        match d.signal_conf_ph.get? ph with
        | none => .error .oob
        | some conf =>
          if solar ≤ 5 ∧ (spot = 1 ∨ spot = 3 ∨ spot = 5) ∧
             conf = CNF_SURFACE_HIGH ∧ 0 ≤ relief ∧ relief < 35 then
            .ok ATL08_TOP_OF_CANOPY
          else .ok flag
    else .error .oob

/-- Processing of one ATL03 photon `(g, c)` (segment id, 1-based in-segment
count) in `classify` (Atl03Reader.cpp:704-780): advance the ATL08 cursor
past rows with `ph_segment_id < g`, then past rows of segment `g` with
`classed_pc_indx < c` (the two `while` loops, as `dropWhile`s of the
cursor suffix); on an exact `(g, c)` match take `classed_pc_flag`,
populate the PhoREAL fields and optionally run the ABoVE reclassifier,
and advance past the matched row; otherwise record `ATL08_UNCLASSIFIED`
and leave the cursor. -/
def classifyPhoton (P : ClassifyParms) (d : ClassifyData) (g : Int) (c : Int)
    (st : ClassifyState) : Except PipeErr ClassifyState :=
  let rows1 := st.rows.dropWhile (fun r => r.seg < g)
  let rows2 := rows1.dropWhile (fun r => r.seg = g ∧ r.indx < c)
  match rows2 with
  | r :: rest =>
    if r.seg = g ∧ r.indx = c then
      if P.phoreal then
        match st.land.head? with
        | none => .error .oob
        | some _lr =>
          match (if P.above_classifier ∧ r.flag ≠ ATL08_TOP_OF_CANOPY then
                   aboveFlag P d g st.atl03_photon r.ph_h r.flag
                 else .ok r.flag) with
          | .error e => .error e
          | .ok flag =>
            .ok { st with rows := rest, cls := st.cls ++ [flag],
                          atl03_photon := st.atl03_photon + 1 }
      else
        .ok { st with rows := rest, cls := st.cls ++ [r.flag],
                      atl03_photon := st.atl03_photon + 1 }
    else
      .ok { st with rows := rows2, cls := st.cls ++ [ATL08_UNCLASSIFIED],
                    atl03_photon := st.atl03_photon + 1 }
  | [] =>
    .ok { st with rows := [], cls := st.cls ++ [ATL08_UNCLASSIFIED],
                  atl03_photon := st.atl03_photon + 1 }

/-- The inner photon loop
`for(atl03_count = 1; atl03_count <= atl03_segment_count; atl03_count++)`
(Atl03Reader.cpp:702), called with `c = 1` and `k = segment_ph_cnt[s]`. -/
def classifyCounts (P : ClassifyParms) (d : ClassifyData) (g : Int) :
    Int → Nat → ClassifyState → Except PipeErr ClassifyState
  | _, 0, st => .ok st
  | c, k + 1, st =>
    match classifyPhoton P d g c st with
    | .error e => .error e
    | .ok st' => classifyCounts P d g (c + 1) k st'

/-- The outer segment loop of `classify` (Atl03Reader.cpp:686-781):
for each ATL03 segment, advance the land-segment cursor while
`segment_id_beg + NUM_ATL03_SEGS_IN_ATL08_SEG ≤ segment_id[s]` (when
PhoREAL or ancillary ATL08 is requested), then run the photon loop.  The
loop bound is `segment_id.size`; `segment_ph_cnt` is indexed along it, so
a shorter count array is an out-of-bounds read. -/
def classifySegs (P : ClassifyParms) (d : ClassifyData) :
    List Int → List Nat → ClassifyState → Except PipeErr ClassifyState
  | [], _, st => .ok st
  | _ :: _, [], _ => .error .oob
  | g :: gs, c :: cs, st =>
    let st1 :=
      if P.phoreal ∨ P.ancillary then
        { st with land :=
            st.land.dropWhile (fun lr => lr.beg + NUM_ATL03_SEGS_IN_ATL08_SEG ≤ g) }
      else st
    match classifyCounts P d g 1 c st1 with
    | .error e => .error e
    | .ok st2 => classifySegs P d gs cs st2

/-- `Atl08Class::classify` (Atl03Reader.cpp:642), enabled path: walk the
ATL03 segments and produce `classification`, one entry per ATL03
photon. -/
def classify (P : ClassifyParms) (d : ClassifyData) :
    Except PipeErr (List Nat) :=
  match classifySegs P d d.segment_id d.segment_ph_cnt
      ⟨0, d.rows, d.land, []⟩ with
  | .error e => .error e
  | .ok st => .ok st.cls

/-- Spec-side class of one photon `(g, c)`: the `classed_pc_flag` of the
unique ATL08 row matching `(segment id, 1-based in-segment index)`
exactly, and `ATL08_UNCLASSIFIED` when no row matches. -/
def matchFlag (rows : List Atl08Row) (g c : Int) : Nat :=
  match rows.find? (fun r => decide (r.seg = g) && decide (r.indx = c)) with
  | some r => r.flag
  | none => ATL08_UNCLASSIFIED

/-- Spec-side classes of the `k` photons `(g, c), (g, c+1), …` of one
segment. -/
def matchFlags (rows : List Atl08Row) (g : Int) : Int → Nat → List Nat
  | _, 0 => []
  | c, k + 1 => matchFlag rows g c :: matchFlags rows g (c + 1) k

/-- Spec-side join: for every ATL03 photon, in photon order, the class of
its `(segment id, 1-based index)` key. -/
def joinSpec (rows : List Atl08Row) : List Int → List Nat → List Nat
  | [], _ => []
  | _ :: _, [] => []
  | g :: gs, c :: cs => matchFlags rows g 1 c ++ joinSpec rows gs cs

/-- Strict lexicographic order on ATL08 signal-photon keys
`(ph_segment_id, classed_pc_indx)`. -/
def rowLt (r₁ r₂ : Atl08Row) : Prop :=
  r₁.seg < r₂.seg ∨ (r₁.seg = r₂.seg ∧ r₁.indx < r₂.indx)

/-- A row's key is lexicographically below the photon key `(g, c)`. -/
def keyLt (r : Atl08Row) (g c : Int) : Prop :=
  r.seg < g ∨ (r.seg = g ∧ r.indx < c)

instance (r₁ r₂ : Atl08Row) : Decidable (rowLt r₁ r₂) := by
  unfold rowLt; infer_instance

instance (r : Atl08Row) (g c : Int) : Decidable (keyLt r g c) := by
  unfold keyLt; infer_instance

/-! # Theorems -/

/-! ## Resource name parser -/

theorem foldl_base10 (s : List Char) (a : Nat) :
    s.foldl (fun a c => a * 10 + (c.toNat - 48)) a =
      a * 10 ^ s.length + base10 s := by
  induction s generalizing a with
  | nil => simp [base10, Nat.ofDigits]
  | cons c cs ih =>
    simp only [List.foldl_cons, ih, base10, List.map_cons, List.reverse_cons,
      Nat.ofDigits_append, List.length_reverse, List.length_map,
      Nat.ofDigits_cons, Nat.ofDigits_nil, List.length_cons]
    ring

theorem str2long_eq (s : List Char) :
    str2long s = if isNumeric s then some (base10 s) else none := by
  unfold str2long isNumeric
  split
  · have := foldl_base10 s 0
    simp at this
    simp [this]
  · rfl

/-- C5: `parseResource` returns `(0, 0, 0)` without error for every
resource string shorter than 29 characters; for strings of length ≥ 29 it
fails iff one of the substrings at positions 21-24, 25-26, 27-28 is
non-numeric, and otherwise returns their base-10 values as
`(rgt, cycle, region)`. -/
theorem parseResource_behavior (r : List Char) :
    (r.length < 29 → parseResource r = .ok (0, 0, 0)) ∧
    (29 ≤ r.length →
      ((∃ e, parseResource r = .error e) ↔
        (¬ isNumeric ((r.drop 21).take 4) ∨ ¬ isNumeric ((r.drop 25).take 2) ∨
         ¬ isNumeric ((r.drop 27).take 2))) ∧
      (isNumeric ((r.drop 21).take 4) → isNumeric ((r.drop 25).take 2) →
        isNumeric ((r.drop 27).take 2) →
        parseResource r = .ok (base10 ((r.drop 21).take 4),
          base10 ((r.drop 25).take 2), base10 ((r.drop 27).take 2)))) := by
  constructor
  · intro h
    unfold parseResource
    rw [if_pos h]
  · intro h
    have hlt : ¬ r.length < 29 := by omega
    unfold parseResource
    rw [if_neg hlt]
    rw [str2long_eq, str2long_eq, str2long_eq]
    by_cases h1 : isNumeric ((r.drop 21).take 4) <;>
      by_cases h2 : isNumeric ((r.drop 25).take 2) <;>
        by_cases h3 : isNumeric ((r.drop 27).take 2) <;>
          simp [h1, h2, h3]

/-- Witness for C5 on a canonical 36-character resource name. -/
theorem parseResource_behavior_witness :
    parseResource ("ATL03_20181017222812_04010211_005_01".toList) =
      .ok (401, 2, 11) := by
  have h := (parseResource_behavior ("ATL03_20181017222812_04010211_005_01".toList)).2
    (by decide) |>.2 (by decide) (by decide) (by decide)
  exact h.trans (by rfl)

/-! ## YAPC V2 knn clamp -/

/-- C8 counterexample: with `settings.knn = 30` (positive), the knn
actually used is 25, not 30 — `MIN(knn, MAX_KNN)` also clamps the
caller-supplied value. -/
theorem yapcV2_knn_counterexample :
    (0 : Int) < 30 ∧ yapcV2UsedKnn 30 1 ≠ 30 := by decide

/-- C8 (amended): whenever `settings.knn ≠ 0`, the knn used for every
segment is `settings.knn` clamped to at most `MAX_KNN = 25`; in
particular it equals `settings.knn` only when that value is ≤ 25. -/
theorem yapcV2_knn_clamped (k d : Int) (hk : k ≠ 0) :
    yapcV2UsedKnn k d = if k ≤ 25 then k else 25 := by
  unfold yapcV2UsedKnn
  rw [if_pos hk]
  split
  · exact min_eq_left (by assumption)
  · exact min_eq_right (by omega)

/-- Witness for C8's amended theorem at `settings.knn = 7`. -/
theorem yapcV2_knn_clamped_witness : yapcV2UsedKnn 7 1 = 7 := by
  have h := yapcV2_knn_clamped 7 1 (by decide)
  exact h.trans (by decide)

/-! ## Region cropper: crop closure -/

theorem polyLoop_found (l : List (Bool × Nat)) (st : PolyState)
    (h : st.found = true) :
    ∃ k ≤ l.length,
      (polyLoop l st).found = true ∧
      (polyLoop l st).first_segment = st.first_segment ∧
      (polyLoop l st).first_photon = st.first_photon ∧
      (polyLoop l st).segment = st.segment + k ∧
      (polyLoop l st).num_photons =
        st.num_photons + ((l.map Prod.snd).take k).sum := by
  induction l generalizing st with
  | nil => exact ⟨0, by simp, by simp [polyLoop, h]⟩
  | cons p rest ih =>
    obtain ⟨b, c⟩ := p
    by_cases hb : ¬ (b = true) ∧ c ≠ 0
    · refine ⟨0, by simp, ?_⟩
      simp [polyLoop, h, hb]
    · obtain ⟨k, hk, h1, h2, h3, h4, h5⟩ :=
        ih { st with num_photons := st.num_photons + c,
                     segment := st.segment + 1 } (by simpa using h)
      refine ⟨k + 1, by simp; omega, ?_⟩
      have hun : polyLoop ((b, c) :: rest) st =
          polyLoop rest { st with num_photons := st.num_photons + c,
                                  segment := st.segment + 1 } := by
        simp only [polyLoop, h]
        rw [if_neg (by simp), if_neg hb]
      rw [hun]
      refine ⟨h1, h2, h3, ?_, ?_⟩
      · rw [h4]; simp; omega
      · rw [h5]; simp [Nat.add_assoc]

theorem polyLoop_spec (l : List (Bool × Nat)) (st : PolyState)
    (h : st.found = false) (hres : (polyLoop l st).found = true) :
    ∃ j k, j + k < l.length ∧
      (polyLoop l st).first_segment = st.segment + j ∧
      (polyLoop l st).segment = st.segment + j + 1 + k ∧
      (polyLoop l st).first_photon =
        st.first_photon + ((l.map Prod.snd).take j).sum ∧
      (polyLoop l st).num_photons =
        (((l.map Prod.snd).drop j).take (k + 1)).sum := by
  induction l generalizing st with
  | nil => rw [polyLoop] at hres; rw [h] at hres; cases hres
  | cons p rest ih =>
    obtain ⟨b, c⟩ := p
    by_cases hb : b = true ∧ c ≠ 0
    · have hun : polyLoop ((b, c) :: rest) st =
          polyLoop rest { st with found := true, first_segment := st.segment,
                                  num_photons := c, segment := st.segment + 1 } := by
        simp only [polyLoop, h]
        rw [if_pos (by simp), if_pos (by simpa using hb)]
      rw [hun]
      obtain ⟨k, hk, h1, h2, h3, h4, h5⟩ :=
        polyLoop_found rest
          { st with found := true, first_segment := st.segment,
                    num_photons := c, segment := st.segment + 1 } (by simp)
      refine ⟨0, k, by simp; omega, ?_, ?_, ?_, ?_⟩
      · simp [h2]
      · simp [h4]
      · simp [h3]
      · simp [h5]
    · have hun : polyLoop ((b, c) :: rest) st =
          polyLoop rest { st with first_photon := st.first_photon + c,
                                  segment := st.segment + 1 } := by
        simp only [polyLoop, h]
        rw [if_pos (by simp), if_neg (by simpa using hb)]
      rw [hun] at hres ⊢
      obtain ⟨j, k, hjk, h1, h2, h3, h4⟩ :=
        ih { st with first_photon := st.first_photon + c,
                     segment := st.segment + 1 } (by simpa using h) hres
      refine ⟨j + 1, k, by simp; omega, ?_, ?_, ?_, ?_⟩
      · rw [h1]; simp; omega
      · rw [h2]; simp; omega
      · rw [h3]; simp [Nat.add_assoc]
      · rw [h4]; simp

theorem rasterLoop_found (l : List (Bool × Nat)) (st : RasterState)
    (h : st.found = true) :
    (rasterLoop l st).found = true ∧
    (rasterLoop l st).first_segment = st.first_segment ∧
    (rasterLoop l st).first_photon = st.first_photon ∧
    (((rasterLoop l st).num_photons = st.num_photons ∧
      (rasterLoop l st).last_segment = st.last_segment) ∨
     (∃ j < l.length, (rasterLoop l st).last_segment = st.segment + j ∧
        (rasterLoop l st).num_photons =
          st.curr_num_photons + ((l.map Prod.snd).take (j + 1)).sum)) := by
  induction l generalizing st with
  | nil => simp [rasterLoop, h]
  | cons p rest ih =>
    obtain ⟨b, c⟩ := p
    by_cases hc : c ≠ 0
    · by_cases hbt : b = true
      · subst hbt
        have hun : rasterLoop ((true, c) :: rest) st =
            rasterLoop rest
              { st with mask := st.mask.set st.segment true,
                        curr_num_photons := st.curr_num_photons + c,
                        num_photons := st.curr_num_photons + c,
                        last_segment := st.segment,
                        segment := st.segment + 1 } := by
          simp only [rasterLoop]
          rw [if_pos hc]
          simp [h]
        rw [hun]
        obtain ⟨h1, h2, h3, h4⟩ := ih
          { st with mask := st.mask.set st.segment true,
                    curr_num_photons := st.curr_num_photons + c,
                    num_photons := st.curr_num_photons + c,
                    last_segment := st.segment,
                    segment := st.segment + 1 } (by simpa using h)
        refine ⟨h1, h2, h3, Or.inr ?_⟩
        rcases h4 with ⟨hn, hl⟩ | ⟨j, hj, hl, hn⟩
        · exact ⟨0, by simp, by rw [hl]; simp, by rw [hn]; simp⟩
        · refine ⟨j + 1, by simp; omega, ?_, ?_⟩
          · rw [hl]; simp; omega
          · rw [hn]; simp [Nat.add_assoc]
      · have hun : rasterLoop ((b, c) :: rest) st =
            rasterLoop rest
              { st with mask := st.mask.set st.segment b,
                        curr_num_photons := st.curr_num_photons + c,
                        segment := st.segment + 1 } := by
          simp only [rasterLoop]
          rw [if_pos hc]
          simp [h, hbt]
        rw [hun]
        obtain ⟨h1, h2, h3, h4⟩ := ih
          { st with mask := st.mask.set st.segment b,
                    curr_num_photons := st.curr_num_photons + c,
                    segment := st.segment + 1 } (by simpa using h)
        refine ⟨h1, h2, h3, ?_⟩
        rcases h4 with ⟨hn, hl⟩ | ⟨j, hj, hl, hn⟩
        · exact Or.inl ⟨hn, hl⟩
        · refine Or.inr ⟨j + 1, by simp; omega, ?_, ?_⟩
          · rw [hl]; simp; omega
          · rw [hn]; simp [Nat.add_assoc]
    · have hun : rasterLoop ((b, c) :: rest) st =
          rasterLoop rest { st with segment := st.segment + 1 } := by
        simp only [rasterLoop]
        rw [if_neg hc]
      rw [hun]
      obtain ⟨h1, h2, h3, h4⟩ :=
        ih { st with segment := st.segment + 1 } (by simpa using h)
      refine ⟨h1, h2, h3, ?_⟩
      rcases h4 with ⟨hn, hl⟩ | ⟨j, hj, hl, hn⟩
      · exact Or.inl ⟨hn, hl⟩
      · refine Or.inr ⟨j + 1, by simp; omega, ?_, ?_⟩
        · rw [hl]; simp; omega
        · rw [hn]
          have hz : c = 0 := by omega
          subst hz
          simp [Nat.add_assoc]

theorem rasterLoop_spec (l : List (Bool × Nat)) (st : RasterState)
    (h : st.found = false) (hres : (rasterLoop l st).found = true) :
    ∃ j m, j ≤ m ∧ m < l.length ∧
      (rasterLoop l st).first_segment = st.segment + j ∧
      (rasterLoop l st).first_photon =
        st.first_photon + ((l.map Prod.snd).take j).sum ∧
      (rasterLoop l st).last_segment = st.segment + m ∧
      (rasterLoop l st).num_photons =
        (((l.map Prod.snd).drop j).take (m - j + 1)).sum := by
  induction l generalizing st with
  | nil => rw [rasterLoop] at hres; rw [h] at hres; cases hres
  | cons p rest ih =>
    obtain ⟨b, c⟩ := p
    by_cases hc : c ≠ 0
    · by_cases hbt : b = true
      · subst hbt
        have hun : rasterLoop ((true, c) :: rest) st =
            rasterLoop rest
              { st with mask := st.mask.set st.segment true,
                        found := true, first_segment := st.segment,
                        last_segment := st.segment,
                        curr_num_photons := c, num_photons := c,
                        segment := st.segment + 1 } := by
          simp only [rasterLoop]
          rw [if_pos hc]
          simp [h]
        rw [hun]
        obtain ⟨h1, h2, h3, h4⟩ := rasterLoop_found rest
          { st with mask := st.mask.set st.segment true,
                    found := true, first_segment := st.segment,
                    last_segment := st.segment,
                    curr_num_photons := c, num_photons := c,
                    segment := st.segment + 1 } (by simp)
        rcases h4 with ⟨hn, hl⟩ | ⟨j2, hj2, hl, hn⟩
        · refine ⟨0, 0, le_refl 0, by simp, ?_, ?_, ?_, ?_⟩
          · simp [h2]
          · simp [h3]
          · simp [hl]
          · simp [hn]
        · refine ⟨0, 1 + j2, by omega, by simp; omega, ?_, ?_, ?_, ?_⟩
          · simp [h2]
          · simp [h3]
          · simp [hl]; omega
          · rw [hn]
            have he : 1 + j2 - 0 + 1 = j2 + 1 + 1 := by omega
            simp [he]
            rw [Nat.add_comm 1 j2]
      · have hun : rasterLoop ((b, c) :: rest) st =
            rasterLoop rest
              { st with mask := st.mask.set st.segment b,
                        first_photon := st.first_photon + c,
                        segment := st.segment + 1 } := by
          simp only [rasterLoop]
          rw [if_pos hc]
          simp [h, hbt]
        rw [hun] at hres ⊢
        obtain ⟨j, m, hjm, hm, h1, h2, h3, h4⟩ := ih
          { st with mask := st.mask.set st.segment b,
                    first_photon := st.first_photon + c,
                    segment := st.segment + 1 } (by simpa using h) hres
        refine ⟨j + 1, m + 1, by omega, by simp; omega, ?_, ?_, ?_, ?_⟩
        · simp [h1]; omega
        · simp [h2, Nat.add_assoc]
        · simp [h3]; omega
        · simp only [h4]; simp
    · have hun : rasterLoop ((b, c) :: rest) st =
          rasterLoop rest { st with segment := st.segment + 1 } := by
        simp only [rasterLoop]
        rw [if_neg hc]
      rw [hun] at hres ⊢
      obtain ⟨j, m, hjm, hm, h1, h2, h3, h4⟩ := ih
        { st with segment := st.segment + 1 } (by simpa using h) hres
      have hz : c = 0 := by omega
      subst hz
      refine ⟨j + 1, m + 1, by omega, by simp; omega, ?_, ?_, ?_, ?_⟩
      · simp [h1]; omega
      · simp [h2]
      · simp [h3]; omega
      · simp only [h4]; simp

/-- C1: crop closure.  For every `RegionCrop` produced by the polygon or
the raster cropper from the per-segment arrays,
`first_photon = sum(segment_ph_cnt[0 .. first_segment))` and
`num_photons = sum(segment_ph_cnt[first_segment .. first_segment + num_segments))`. -/
theorem region_crop_closure (incl : List Bool) (cnt : List Nat)
    (hlen : incl.length = cnt.length) :
    (∀ r, polyregion incl cnt = some r →
      r.first_photon = (cnt.take r.first_segment).sum ∧
      r.num_photons = ((cnt.drop r.first_segment).take r.num_segments).sum) ∧
    (∀ r, rasterregion incl cnt = some r →
      r.first_photon = (cnt.take r.first_segment).sum ∧
      r.num_photons = ((cnt.drop r.first_segment).take r.num_segments).sum) := by
  have hmap : (incl.zip cnt).map Prod.snd = cnt :=
    List.map_snd_zip incl cnt (le_of_eq hlen.symm)
  constructor
  · intro r hr
    simp only [polyregion] at hr
    by_cases hf : (polyLoop (incl.zip cnt) ⟨false, 0, 0, 0, 0⟩).found = true
    · rw [if_pos hf] at hr
      obtain ⟨j, k, hjk, h1, h2, h3, h4⟩ :=
        polyLoop_spec (incl.zip cnt) ⟨false, 0, 0, 0, 0⟩ rfl hf
      rw [Option.some_inj] at hr
      subst hr
      simp only [hmap] at h3 h4
      simp only [h1, h2, h3, h4]
      constructor
      · simp
      · have h5 : j + 1 + k - j = k + 1 := by omega
        simp [h5]
    · rw [if_neg hf] at hr
      cases hr
  · intro r hr
    simp only [rasterregion] at hr
    by_cases h0 : cnt.length = 0
    · rw [if_pos h0] at hr
      cases hr
    · rw [if_neg h0] at hr
      by_cases hf : (rasterLoop (incl.zip cnt)
          ⟨false, 0, 0, 0, 0, 0, 0, List.replicate cnt.length false⟩).found = true
      · rw [if_pos hf] at hr
        obtain ⟨j, m, hjm, hm, h1, h2, h3, h4⟩ :=
          rasterLoop_spec (incl.zip cnt)
            ⟨false, 0, 0, 0, 0, 0, 0, List.replicate cnt.length false⟩ rfl hf
        rw [Option.some_inj] at hr
        subst hr
        simp only [hmap] at h2 h4
        simp only [h1, h2, h3, h4]
        constructor
        · simp
        · have : (0 + m) - (0 + j) + 1 = m - j + 1 := by omega
          simp [this]
      · rw [if_neg hf] at hr
        cases hr

/-- Witness for C1 on a concrete four-segment strip where the middle two
segments are included. -/
theorem region_crop_closure_witness :
    (∃ r, polyregion [false, true, true, false] [2, 3, 4, 5] = some r ∧
      r.first_photon = (([2, 3, 4, 5] : List Nat).take r.first_segment).sum ∧
      r.num_photons = ((([2, 3, 4, 5] : List Nat).drop r.first_segment).take
        r.num_segments).sum) ∧
    (∃ r, rasterregion [false, true, true, false] [2, 3, 4, 5] = some r ∧
      r.first_photon = (([2, 3, 4, 5] : List Nat).take r.first_segment).sum ∧
      r.num_photons = ((([2, 3, 4, 5] : List Nat).drop r.first_segment).take
        r.num_segments).sum) := by
  have h := region_crop_closure [false, true, true, false] [2, 3, 4, 5] (by decide)
  constructor
  · exact ⟨⟨1, 2, 2, 7⟩, by decide, h.1 ⟨1, 2, 2, 7⟩ (by decide)⟩
  · exact ⟨⟨1, 2, 2, 7⟩, by decide, h.2 ⟨1, 2, 2, 7⟩ (by decide)⟩

/-! ## Background rate interpolation -/

theorem chainLt_get?_le (l : List ℚ) (h : l.Chain' (· < ·)) (i j : Nat)
    (x y : ℚ) (hij : i ≤ j) (hx : l.get? i = some x) (hy : l.get? j = some y) :
    x ≤ y := by
  rcases Nat.eq_or_lt_of_le hij with heq | hlt
  · subst heq
    rw [hx] at hy
    exact le_of_eq (Option.some_inj.mp hy)
  · have hp := List.chain'_iff_pairwise.mp h
    rw [List.get?_eq_some] at hx hy
    obtain ⟨hi, hxe⟩ := hx
    obtain ⟨hj, hye⟩ := hy
    have := (List.pairwise_iff_get.mp hp) ⟨i, hi⟩ ⟨j, hj⟩ hlt
    rw [hxe, hye] at this
    exact le_of_lt this

theorem le_foldr_max (l : List ℚ) (a : ℚ) : ∀ s ∈ l, s ≤ l.foldr max a := by
  induction l with
  | nil => intro s hs; cases hs
  | cons x xs ih =>
    intro s hs
    rcases List.mem_cons.mp hs with rfl | hs'
    · exact le_max_left _ _
    · exact le_trans (ih s hs') (le_max_right _ _)

theorem calcBgLoop_mono (bt rate : List ℚ) (t : ℚ) :
    ∀ (fuel cursor : Nat) (bg v : ℚ) (c' : Nat),
      calcBgLoop bt rate t fuel cursor bg = some (v, c') → cursor ≤ c' := by
  intro fuel
  induction fuel with
  | zero =>
    intro cursor bg v c' hres
    rw [calcBgLoop] at hres
    by_cases hcur : cursor < rate.length
    · rw [if_pos hcur] at hres; cases hres
    · rw [if_neg hcur] at hres
      simp at hres
      omega
  | succ fuel ih =>
    intro cursor bg v c' hres
    rw [calcBgLoop] at hres
    by_cases hcur : cursor < rate.length
    · rw [if_pos hcur] at hres
      cases hbt : bt.get? cursor with
      | none => rw [hbt] at hres; cases hres
      | some currT =>
        rw [hbt] at hres
        simp only [Option.bind_eq_bind, Option.some_bind] at hres
        by_cases hle : t ≤ currT
        · rw [if_pos hle] at hres
          by_cases hpos : 0 < cursor
          · rw [if_pos hpos] at hres
            simp only [Option.bind_eq_bind, Option.bind_eq_some,
              Option.some.injEq, Prod.mk.injEq] at hres
            obtain ⟨pT, _, pR, _, cR, _, _, hc⟩ := hres
            omega
          · rw [if_neg hpos] at hres
            simp only [Option.bind_eq_bind, Option.bind_eq_some,
              Option.some.injEq, Prod.mk.injEq] at hres
            obtain ⟨r0, _, _, hc⟩ := hres
            omega
        · rw [if_neg hle] at hres
          exact le_trans (Nat.le_succ cursor) (ih (cursor + 1) bg v c' hres)
    · rw [if_neg hcur] at hres
      simp at hres
      omega

theorem calcBgLoop_correct (bt rate : List ℚ) (t : ℚ)
    (hlen : bt.length = rate.length) (hchain : bt.Chain' (· < ·)) :
    ∀ (fuel cursor : Nat) (bg : ℚ), fuel = rate.length - cursor →
      cursor ≤ rate.length →
      (∀ i < cursor, ∃ s, bt.get? i = some s ∧ s < t) →
      ∃ v c', calcBgLoop bt rate t fuel cursor bg = some (v, c') ∧
        ((∀ s ∈ bt, s < t) → v = bg) ∧
        (∀ s0, bt.get? 0 = some s0 → t ≤ s0 → rate.get? 0 = some v) ∧
        (∀ j tj tj1 rj rj1, bt.get? j = some tj → bt.get? (j + 1) = some tj1 →
          rate.get? j = some rj → rate.get? (j + 1) = some rj1 →
          tj < t → t ≤ tj1 →
          v = rj + (rj1 - rj) * (t - tj) / (tj1 - tj)) := by
  intro fuel
  induction fuel with
  | zero =>
    intro cursor bg hfuel hcur hinv
    have hcl : cursor = rate.length := by omega
    refine ⟨bg, cursor, ?_, ?_, ?_, ?_⟩
    · rw [calcBgLoop]
      rw [if_neg (by omega)]
    · intro _; rfl
    · intro s0 hs0 hts0
      have hbpos : 0 < bt.length := by
        by_contra hz
        rw [List.get?_eq_none.mpr (by omega)] at hs0
        cases hs0
      obtain ⟨s, hger, hslt⟩ := hinv 0 (by omega)
      rw [hger] at hs0
      have heq : s0 = s := Option.some_inj.mp hs0.symm
      subst heq
      exact absurd (lt_of_le_of_lt hts0 hslt) (lt_irrefl t)
    · intro j tj tj1 rj rj1 hj hj1 _ _ _ htj1
      have hjlt : j + 1 < bt.length := (List.get?_eq_some.mp hj1).1
      obtain ⟨s, hger, hslt⟩ := hinv (j + 1) (by omega)
      rw [hger] at hj1
      have heq : tj1 = s := Option.some_inj.mp hj1.symm
      subst heq
      exact absurd (lt_of_le_of_lt htj1 hslt) (lt_irrefl t)
  | succ fuel ih =>
    intro cursor bg hfuel hcur hinv
    have hcl : cursor < rate.length := by omega
    obtain ⟨s, hs⟩ : ∃ s, bt.get? cursor = some s :=
      ⟨bt.get ⟨cursor, by omega⟩, List.get?_eq_get (by omega)⟩
    by_cases hle : t ≤ s
    · by_cases hpos : 0 < cursor
      · obtain ⟨pT, hpT⟩ : ∃ pT, bt.get? (cursor - 1) = some pT :=
          ⟨bt.get ⟨cursor - 1, by omega⟩, List.get?_eq_get (by omega)⟩
        obtain ⟨pR, hpR⟩ : ∃ pR, rate.get? (cursor - 1) = some pR :=
          ⟨rate.get ⟨cursor - 1, by omega⟩, List.get?_eq_get (by omega)⟩
        obtain ⟨cR, hcR⟩ : ∃ cR, rate.get? cursor = some cR :=
          ⟨rate.get ⟨cursor, by omega⟩, List.get?_eq_get (by omega)⟩
        refine ⟨((cR - pR) / (s - pT)) * (t - pT) + pR, cursor, ?_, ?_, ?_, ?_⟩
        · rw [calcBgLoop, if_pos hcl, hs]
          simp only [Option.bind_eq_bind, Option.some_bind]
          rw [if_pos hle, if_pos hpos, hpT]
          simp only [Option.bind_eq_bind, Option.some_bind]
          rw [hpR]
          simp only [Option.bind_eq_bind, Option.some_bind]
          rw [hcR]
          simp only [Option.bind_eq_bind, Option.some_bind]
        · intro hall
          exact absurd (lt_of_lt_of_le (hall s (List.get?_mem hs)) hle)
            (lt_irrefl s)
        · intro s0 hs0 hts0
          obtain ⟨s', hg, hlt'⟩ := hinv 0 hpos
          rw [hg] at hs0
          have heq : s0 = s' := Option.some_inj.mp hs0.symm
          subst heq
          exact absurd (lt_of_le_of_lt hts0 hlt') (lt_irrefl t)
        · intro j tj tj1 rj rj1 hj hj1 hrj hrj1 htj htj1
          have hjeq : j = cursor - 1 := by
            have hjc : j < cursor := by
              by_contra hge
              have hle2 := chainLt_get?_le bt hchain cursor j s tj
                (by omega) hs hj
              linarith
            have hjc1 : cursor ≤ j + 1 := by
              by_contra hgt
              obtain ⟨s', hg, hlt'⟩ := hinv (j + 1) (by omega)
              rw [hg] at hj1
              have heq : tj1 = s' := Option.some_inj.mp hj1.symm
              subst heq
              linarith
            omega
          subst hjeq
          have h1 : tj = pT := by
            rw [hpT] at hj; exact (Option.some_inj.mp hj).symm
          have h2 : rj = pR := by
            rw [hpR] at hrj; exact (Option.some_inj.mp hrj).symm
          have h3 : tj1 = s := by
            rw [show cursor - 1 + 1 = cursor by omega, hs] at hj1
            exact (Option.some_inj.mp hj1).symm
          have h4 : rj1 = cR := by
            rw [show cursor - 1 + 1 = cursor by omega, hcR] at hrj1
            exact (Option.some_inj.mp hrj1).symm
          subst h1 h2 h3 h4
          ring
      · obtain ⟨r0, hr0⟩ : ∃ r0, rate.get? 0 = some r0 :=
          ⟨rate.get ⟨0, by omega⟩, List.get?_eq_get (by omega)⟩
        have hc0 : cursor = 0 := by omega
        subst hc0
        refine ⟨r0, 0, ?_, ?_, ?_, ?_⟩
        · rw [calcBgLoop, if_pos hcl, hs]
          simp only [Option.bind_eq_bind, Option.some_bind]
          rw [if_pos hle, if_neg hpos, hr0]
          simp only [Option.bind_eq_bind, Option.some_bind]
        · intro hall
          exact absurd (lt_of_lt_of_le (hall s (List.get?_mem hs)) hle)
            (lt_irrefl s)
        · intro s0 hs0 _
          rw [hs] at hs0
          exact hr0
        · intro j tj tj1 rj rj1 hj hj1 hrj hrj1 htj htj1
          have hle2 : s ≤ tj := chainLt_get?_le bt hchain 0 j s tj
            (by omega) hs hj
          linarith
    · obtain ⟨v, c', hloop, hc1, hc2, hc3⟩ := ih (cursor + 1) bg
        (by omega) (by omega)
        (by
          intro i hi
          by_cases hic : i < cursor
          · exact hinv i hic
          · have heq : i = cursor := by omega
            subst heq
            exact ⟨s, hs, not_le.mp hle⟩)
      refine ⟨v, c', ?_, hc1, hc2, hc3⟩
      rw [calcBgLoop, if_pos hcl, hs]
      simp only [Option.bind_eq_bind, Option.some_bind]
      rw [if_neg hle]
      exact hloop


theorem calcBgLoop_total (bt rate : List ℚ) (t : ℚ)
    (hble : rate.length ≤ bt.length) :
    ∀ (fuel cursor : Nat) (bg : ℚ), fuel = rate.length - cursor →
      ∃ v c', calcBgLoop bt rate t fuel cursor bg = some (v, c') := by
  intro fuel
  induction fuel with
  | zero =>
    intro cursor bg hfuel
    exact ⟨bg, cursor, by rw [calcBgLoop, if_neg (by omega)]⟩
  | succ fuel ih =>
    intro cursor bg hfuel
    have hcl : cursor < rate.length := by omega
    obtain ⟨s, hs⟩ : ∃ s, bt.get? cursor = some s :=
      ⟨bt.get ⟨cursor, by omega⟩, List.get?_eq_get (by omega)⟩
    by_cases hle : t ≤ s
    · by_cases hpos : 0 < cursor
      · obtain ⟨pT, hpT⟩ : ∃ pT, bt.get? (cursor - 1) = some pT :=
          ⟨bt.get ⟨cursor - 1, by omega⟩, List.get?_eq_get (by omega)⟩
        obtain ⟨pR, hpR⟩ : ∃ pR, rate.get? (cursor - 1) = some pR :=
          ⟨rate.get ⟨cursor - 1, by omega⟩, List.get?_eq_get (by omega)⟩
        obtain ⟨cR, hcR⟩ : ∃ cR, rate.get? cursor = some cR :=
          ⟨rate.get ⟨cursor, by omega⟩, List.get?_eq_get (by omega)⟩
        refine ⟨((cR - pR) / (s - pT)) * (t - pT) + pR, cursor, ?_⟩
        rw [calcBgLoop, if_pos hcl, hs]
        simp only [Option.bind_eq_bind, Option.some_bind]
        rw [if_pos hle, if_pos hpos, hpT]
        simp only [Option.bind_eq_bind, Option.some_bind]
        rw [hpR]
        simp only [Option.bind_eq_bind, Option.some_bind]
        rw [hcR]
        simp only [Option.bind_eq_bind, Option.some_bind]
      · obtain ⟨r0, hr0⟩ : ∃ r0, rate.get? 0 = some r0 :=
          ⟨rate.get ⟨0, by omega⟩, List.get?_eq_get (by omega)⟩
        refine ⟨r0, cursor, ?_⟩
        rw [calcBgLoop, if_pos hcl, hs]
        simp only [Option.bind_eq_bind, Option.some_bind]
        rw [if_pos hle, if_neg hpos, hr0]
        simp only [Option.bind_eq_bind, Option.some_bind]
    · obtain ⟨v, c', h⟩ := ih (cursor + 1) bg (by omega)
      refine ⟨v, c', ?_⟩
      rw [calcBgLoop, if_pos hcl, hs]
      simp only [Option.bind_eq_bind, Option.some_bind]
      rw [if_neg hle]
      exact h

theorem calcBgLoop_runs_off (bt rate : List ℚ) (t : ℚ)
    (hlt : bt.length < rate.length) (hall : ∀ s ∈ bt, s < t) :
    ∀ (fuel cursor : Nat) (bg : ℚ), fuel = rate.length - cursor →
      cursor ≤ bt.length →
      calcBgLoop bt rate t fuel cursor bg = none := by
  intro fuel
  induction fuel with
  | zero =>
    intro cursor bg hfuel hcb
    exfalso
    omega
  | succ fuel ih =>
    intro cursor bg hfuel hcb
    have hcl : cursor < rate.length := by omega
    rw [calcBgLoop, if_pos hcl]
    by_cases hc : cursor < bt.length
    · obtain ⟨s, hs⟩ : ∃ s, bt.get? cursor = some s :=
        ⟨bt.get ⟨cursor, hc⟩, List.get?_eq_get hc⟩
      rw [hs]
      simp only [Option.bind_eq_bind, Option.some_bind]
      rw [if_neg (not_le.mpr (hall s (List.get?_mem hs)))]
      exact ih (cursor + 1) bg (by omega) (by omega)
    · have hnone : bt.get? cursor = none := List.get?_eq_none.mpr (by omega)
      rw [hnone]
      simp

/-- C4: for every emitted extent, `background_rate` is the piecewise-linear
interpolation of `bckgrd_rate` at the segment's delta time:
`bckgrd_rate[0]` when the segment time is at or before the first sample,
`bckgrd_rate[last]` when it follows every sample, and the linear
interpolation between the two bracketing samples otherwise; the cursor
`bckgrd_in` only advances.  In particular, with
`bckgrd_delta_time = [0, 10]`, `bckgrd_rate = [100, 200]` and segment
time 7, the emitted rate is 170. -/
theorem background_rate_interpolation :
    (∀ (bt rate : List ℚ) (t : ℚ),
      bt.length = rate.length → rate ≠ [] → bt.Chain' (· < ·) →
      ∃ v c', calculateBackground bt rate t 0 = some (v, c') ∧
        ((∀ s ∈ bt, s < t) → rate.getLast? = some v) ∧
        (∀ s0, bt.get? 0 = some s0 → t ≤ s0 → rate.get? 0 = some v) ∧
        (∀ j tj tj1 rj rj1, bt.get? j = some tj → bt.get? (j + 1) = some tj1 →
          rate.get? j = some rj → rate.get? (j + 1) = some rj1 →
          tj < t → t ≤ tj1 →
          v = rj + (rj1 - rj) * (t - tj) / (tj1 - tj))) ∧
    (∀ (bt rate : List ℚ) (t : ℚ) (c0 : Nat) (v : ℚ) (c' : Nat),
      calculateBackground bt rate t c0 = some (v, c') → c0 ≤ c') ∧
    calculateBackground [0, 10] [100, 200] 7 0 = some (170, 1) := by
  refine ⟨?_, ?_, ?_⟩
  · intro bt rate t hlen hne hchain
    have hpos : 0 < rate.length := List.length_pos.mpr hne
    obtain ⟨init, hinit⟩ : ∃ i, rate.get? (rate.length - 1) = some i :=
      ⟨rate.get ⟨rate.length - 1, by omega⟩, List.get?_eq_get (by omega)⟩
    obtain ⟨v, c', hloop, h1, h2, h3⟩ :=
      calcBgLoop_correct bt rate t hlen hchain (rate.length - 0) 0 init
        rfl (by omega) (by intro i hi; omega)
    refine ⟨v, c', ?_, ?_, h2, h3⟩
    · simp only [calculateBackground, hinit, Option.bind_eq_bind,
        Option.some_bind]
      exact hloop
    · intro hall
      rw [List.getLast?_eq_getElem?, ← List.get?_eq_getElem?, hinit,
        h1 hall]
  · intro bt rate t c0 v c' hres
    simp only [calculateBackground, Option.bind_eq_bind,
      Option.bind_eq_some] at hres
    obtain ⟨init, _, hloop⟩ := hres
    exact calcBgLoop_mono bt rate t (rate.length - c0) c0 init v c' hloop
  · norm_num [calculateBackground, calcBgLoop]

/-- Witness for C4, recovering the interpolated value 170 from the general
theorem at the spec's example. -/
theorem background_rate_interpolation_witness :
    ∃ v c', calculateBackground [0, 10] [100, 200] 7 0 = some (v, c') ∧
      v = 100 + (200 - 100) * (7 - 0) / (10 - 0) := by
  obtain ⟨v, c', heq, _, _, h3⟩ :=
    background_rate_interpolation.1 [0, 10] [100, 200] 7 (by norm_num)
      (by simp) (by simp [List.chain'_cons])
  exact ⟨v, c', heq,
    h3 0 0 10 100 200 (by norm_num) (by norm_num) (by norm_num) (by norm_num)
      (by norm_num) (by norm_num)⟩

/-- C10: `calculateBackground` reads `bckgrd_rate[size - 1]` before the
scan and `bckgrd_delta_time[bckgrd_in]` at each cursor position below
`bckgrd_rate.size`; every access is in bounds iff `bckgrd_rate` is
non-empty and `bckgrd_delta_time` has at least `bckgrd_rate.size`
elements.  With an empty `bckgrd_rate` the very first access is out of
bounds for any inputs; with a short `bckgrd_delta_time` there is a segment
time making the scan run off its end. -/
theorem calculateBackground_bounds :
    (∀ (bt : List ℚ) (t : ℚ) (c0 : Nat),
      calculateBackground bt [] t c0 = none) ∧
    (∀ (bt rate : List ℚ) (t : ℚ) (c0 : Nat), rate ≠ [] →
      rate.length ≤ bt.length →
      ∃ v c', calculateBackground bt rate t c0 = some (v, c')) ∧
    (∀ (bt rate : List ℚ), bt.length < rate.length →
      ∃ t, calculateBackground bt rate t 0 = none) := by
  refine ⟨?_, ?_, ?_⟩
  · intro bt t c0
    rfl
  · intro bt rate t c0 hne hble
    have hpos : 0 < rate.length := List.length_pos.mpr hne
    obtain ⟨init, hinit⟩ : ∃ i, rate.get? (rate.length - 1) = some i :=
      ⟨rate.get ⟨rate.length - 1, by omega⟩, List.get?_eq_get (by omega)⟩
    obtain ⟨v, c', h⟩ :=
      calcBgLoop_total bt rate t hble (rate.length - c0) c0 init rfl
    refine ⟨v, c', ?_⟩
    simp only [calculateBackground, hinit, Option.bind_eq_bind,
      Option.some_bind]
    exact h
  · intro bt rate hlt
    refine ⟨bt.foldr max 0 + 1, ?_⟩
    have hall : ∀ s ∈ bt, s < bt.foldr max 0 + 1 := fun s hs =>
      lt_of_le_of_lt (le_foldr_max bt 0 s hs) (by linarith)
    have hpos : 0 < rate.length := by omega
    obtain ⟨init, hinit⟩ : ∃ i, rate.get? (rate.length - 1) = some i :=
      ⟨rate.get ⟨rate.length - 1, by omega⟩, List.get?_eq_get (by omega)⟩
    have h := calcBgLoop_runs_off bt rate (bt.foldr max 0 + 1) hlt hall
      (rate.length - 0) 0 init rfl (by omega)
    simp only [calculateBackground, hinit, Option.bind_eq_bind,
      Option.some_bind]
    exact h

/-- Witness for C10: an empty rate array fails immediately, a covered rate
array always succeeds, and a short time array can fail. -/
theorem calculateBackground_bounds_witness :
    calculateBackground [3] ([] : List ℚ) 0 0 = none ∧
    (∃ v c', calculateBackground [0] [5] 3 0 = some (v, c')) ∧
    (∃ t, calculateBackground ([] : List ℚ) [5] t 0 = none) := by
  refine ⟨calculateBackground_bounds.1 [3] 0 0, ?_, ?_⟩
  · exact calculateBackground_bounds.2.1 [0] [5] 3 0 (by simp) (by norm_num)
  · exact calculateBackground_bounds.2.2 [] [5] (by norm_num)

/-! ## YAPC V2 spread computation -/

theorem bandMinMax_step (vs : List ℚ) (a : Nat) (mn mx v : ℚ)
    (hv : vs.get? a = some v) (hb : bandMinMax vs 0 a mn mx) :
    bandMinMax vs 0 (a + 1) (if v < mn then v else mn)
      (if mx < v then v else mx) := by
  obtain ⟨⟨i1, hi1a, hi1b, hg1⟩, ⟨i2, hi2a, hi2b, hg2⟩, hbound⟩ := hb
  refine ⟨?_, ?_, ?_⟩
  · by_cases h : v < mn
    · exact ⟨a, by omega, by omega, by rw [if_pos h]; exact hv⟩
    · exact ⟨i1, by omega, by omega, by rw [if_neg h]; exact hg1⟩
  · by_cases h : mx < v
    · exact ⟨a, by omega, by omega, by rw [if_pos h]; exact hv⟩
    · exact ⟨i2, by omega, by omega, by rw [if_neg h]; exact hg2⟩
  · intro i w h0i hia hg
    by_cases hi : i < a
    · obtain ⟨hl, hr⟩ := hbound i w h0i hi hg
      constructor
      · by_cases h : v < mn
        · rw [if_pos h]; linarith
        · rw [if_neg h]; exact hl
      · by_cases h : mx < v
        · rw [if_pos h]; linarith
        · rw [if_neg h]; exact hr
    · have heq : i = a := by omega
      subst heq
      rw [hv] at hg
      obtain rfl : v = w := Option.some_inj.mp hg
      constructor
      · by_cases h : v < mn
        · rw [if_pos h]
        · rw [if_neg h]; linarith [not_lt.mp h]
      · by_cases h : mx < v
        · rw [if_pos h]
        · rw [if_neg h]; linarith [not_lt.mp h]

theorem yapcV2Spread_fold (hs xs : List ℚ) :
    ∀ (k a : Nat) (acc : ℚ × ℚ × ℚ × ℚ), 0 < a →
      a + k ≤ hs.length → a + k ≤ xs.length →
      bandMinMax hs 0 a acc.1 acc.2.1 →
      bandMinMax xs 0 a acc.2.2.1 acc.2.2.2 →
      ∃ acc', (List.range' a k).foldlM
          (fun (a : ℚ × ℚ × ℚ × ℚ) n => do
            let h ← hs.get? n
            let x ← xs.get? n
            pure (if h < a.1 then h else a.1,
                  if a.2.1 < h then h else a.2.1,
                  if x < a.2.2.1 then x else a.2.2.1,
                  if a.2.2.2 < x then x else a.2.2.2)) acc = some acc' ∧
        bandMinMax hs 0 (a + k) acc'.1 acc'.2.1 ∧
        bandMinMax xs 0 (a + k) acc'.2.2.1 acc'.2.2.2 := by
  intro k
  induction k with
  | zero =>
    intro a acc _ _ _ hH hX
    exact ⟨acc, rfl, by simpa using hH, by simpa using hX⟩
  | succ k ih =>
    intro a acc hpos hhl hxl hH hX
    obtain ⟨h, hh⟩ : ∃ h, hs.get? a = some h :=
      ⟨hs.get ⟨a, by omega⟩, List.get?_eq_get (by omega)⟩
    obtain ⟨x, hx⟩ : ∃ x, xs.get? a = some x :=
      ⟨xs.get ⟨a, by omega⟩, List.get?_eq_get (by omega)⟩
    have hH' := bandMinMax_step hs a acc.1 acc.2.1 h hh hH
    have hX' := bandMinMax_step xs a acc.2.2.1 acc.2.2.2 x hx hX
    obtain ⟨acc', hfold, hbH, hbX⟩ := ih (a + 1)
      (if h < acc.1 then h else acc.1,
       if acc.2.1 < h then h else acc.2.1,
       if x < acc.2.2.1 then x else acc.2.2.1,
       if acc.2.2.2 < x then x else acc.2.2.2)
      (by omega) (by omega) (by omega) hH' hX'
    refine ⟨acc', ?_, ?_, ?_⟩
    · rw [List.range'_succ, List.foldlM_cons, hh]
      simp only [Option.bind_eq_bind, Option.some_bind]
      rw [hx]
      simp only [Option.bind_eq_bind, Option.some_bind]
      exact hfold
    · have heq : a + 1 + k = a + (k + 1) := by omega
      rw [← heq]
      exact hbH
    · have heq : a + 1 + k = a + (k + 1) := by omega
      rw [← heq]
      exact hbX

/-- C6 counterexample: with `segment_ph_cnt = [1, 2]`, segment index 1 has
`N = 2` and center band `[ph_c0, ph_c1) = [1, 3)`.  On heights
`[0, 5, 100]` and along-track distances `[0, 1, 2]`, the code's spread
scan over `N` photons yields `hspread = 5` (photons 0..1 of the whole
axis), but 5 is not the spread of the center band — the center band's
spread is 95.  The spreads used in the validity check are therefore not
computed over the center band. -/
theorem yapcV2_spread_counterexample :
    yapcV2Spread [0, 5, 100] [0, 1, 2] 2 = some (5, 1) ∧
    ¬ isBandSpread [0, 5, 100] 1 3 5 := by
  constructor
  · norm_num [yapcV2Spread, List.range', List.foldlM_cons, List.foldlM_nil]
  · rintro ⟨mn, mx, ⟨⟨i1, hi1a, hi1b, hg1⟩, ⟨i2, hi2a, hi2b, hg2⟩, hbound⟩,
      hsp⟩
    have h5 := hbound 1 5 (by omega) (by omega) rfl
    have h100 := hbound 2 100 (by omega) (by omega) rfl
    have hmn : mn = 5 ∨ mn = 100 := by
      have : i1 = 1 ∨ i1 = 2 := by omega
      rcases this with rfl | rfl
      · left; exact (Option.some_inj.mp hg1).symm
      · right; exact (Option.some_inj.mp hg1).symm
    have hmx : mx = 5 ∨ mx = 100 := by
      have : i2 = 1 ∨ i2 = 2 := by omega
      rcases this with rfl | rfl
      · left; exact (Option.some_inj.mp hg2).symm
      · right; exact (Option.some_inj.mp hg2).symm
    rcases hmn with rfl | rfl <;> rcases hmx with rfl | rfl <;>
      norm_num at hsp

/-- C6 (amended): in YAPC V2, the `hspread` and `xspread` used in the
validity check of segment `s` are the max-minus-min spreads over the first
`N = segment_ph_cnt[s]` photons of the *whole* photon axis (indices
`0..N-1`), not over the segment's center band. -/
theorem yapcV2_spread_first_n (hs xs : List ℚ) (N : Nat) (h1 : 1 ≤ N)
    (h2 : N ≤ hs.length) (h3 : N ≤ xs.length) :
    ∃ hsp xsp, yapcV2Spread hs xs N = some (hsp, xsp) ∧
      isBandSpread hs 0 N hsp ∧ isBandSpread xs 0 N xsp := by
  obtain ⟨h0, hh0⟩ : ∃ h0, hs.get? 0 = some h0 :=
    ⟨hs.get ⟨0, by omega⟩, List.get?_eq_get (by omega)⟩
  obtain ⟨x0, hx0⟩ : ∃ x0, xs.get? 0 = some x0 :=
    ⟨xs.get ⟨0, by omega⟩, List.get?_eq_get (by omega)⟩
  have hH : bandMinMax hs 0 1 h0 h0 := by
    refine ⟨⟨0, by omega, by omega, hh0⟩, ⟨0, by omega, by omega, hh0⟩, ?_⟩
    intro i v h0i hi1 hg
    have heq : i = 0 := by omega
    subst heq
    rw [hh0] at hg
    have heq2 : v = h0 := Option.some_inj.mp hg.symm
    subst heq2
    exact ⟨le_refl _, le_refl _⟩
  have hX : bandMinMax xs 0 1 x0 x0 := by
    refine ⟨⟨0, by omega, by omega, hx0⟩, ⟨0, by omega, by omega, hx0⟩, ?_⟩
    intro i v h0i hi1 hg
    have heq : i = 0 := by omega
    subst heq
    rw [hx0] at hg
    have heq2 : v = x0 := Option.some_inj.mp hg.symm
    subst heq2
    exact ⟨le_refl _, le_refl _⟩
  obtain ⟨acc', hfold, hbH, hbX⟩ := yapcV2Spread_fold hs xs (N - 1) 1
    (h0, h0, x0, x0) (by omega) (by omega) (by omega) hH hX
  have hN : 1 + (N - 1) = N := by omega
  rw [hN] at hbH hbX
  refine ⟨acc'.2.1 - acc'.1, acc'.2.2.2 - acc'.2.2.1, ?_, ?_, ?_⟩
  · simp only [yapcV2Spread, hh0, hx0, Option.bind_eq_bind, Option.some_bind]
    simp only [Option.bind_eq_bind] at hfold
    rw [hfold]
    simp only [Option.some_bind]
  · exact ⟨acc'.1, acc'.2.1, hbH, rfl⟩
  · exact ⟨acc'.2.2.1, acc'.2.2.2, hbX, rfl⟩

/-- Witness for C6's amended theorem on a one-segment strip. -/
theorem yapcV2_spread_first_n_witness :
    ∃ hsp xsp, yapcV2Spread [0, 5] [0, 1] 2 = some (hsp, xsp) ∧
      isBandSpread [0, 5] 0 2 hsp ∧ isBandSpread [0, 1] 0 2 xsp :=
  yapcV2_spread_first_n [0, 5] [0, 1] 2 (by norm_num) (by norm_num)
    (by norm_num)

/-! ## Extent state machine: filter conservation -/

theorem regionCheck_accepted (d : PhotonArrays) (seg : Nat)
    (h : regionCheck d seg = .ok true) :
    ∀ m, d.inclusion = some m → m.get? seg = some true := by
  intro m hm
  unfold regionCheck at h
  split at h
  · rename_i m' hm'
    rw [hm] at hm'
    obtain rfl : m = m' := Option.some_inj.mp hm'
    split at h
    · cases h
    · rename_i b hb
      cases b with
      | false => simp at h
      | true => exact hb
  · rename_i hnone
    rw [hm] at hnone
    cases hnone

theorem yapcCheck_accepted (P : FilterParms) (d : PhotonArrays)
    (ph seg : Nat) (h : yapcCheck P d ph seg = .ok true) :
    (∀ ys, d.yapc_arr = some ys →
      ∃ s, ys.get? ph = some s ∧ P.yapc_score ≤ s) ∧
    (∀ m, d.inclusion = some m → m.get? seg = some true) := by
  unfold yapcCheck at h
  split at h
  · rename_i ys hy
    split at h
    · cases h
    · rename_i s hg
      by_cases hlt : s < P.yapc_score
      · rw [if_pos hlt] at h; cases h
      · rw [if_neg hlt] at h
        refine ⟨?_, regionCheck_accepted d seg h⟩
        intro ys' hys'
        rw [hy] at hys'
        obtain rfl : ys = ys' := Option.some_inj.mp hys'
        exact ⟨s, hg, not_lt.mp hlt⟩
  · rename_i hy
    refine ⟨?_, regionCheck_accepted d seg h⟩
    intro ys hys
    rw [hy] at hys
    cases hys

theorem photonChecks_accepted (P : FilterParms) (d : PhotonArrays)
    (ph seg : Nat) (h : photonChecks P d ph seg = .ok true) :
    photonAccepted P d ph seg := by
  unfold photonChecks at h
  split at h
  · cases h
  · rename_i cnf hcnf
    by_cases h1 : cnf < CNF_POSSIBLE_TEP ∨ CNF_SURFACE_HIGH < cnf
    · rw [if_pos h1] at h; cases h
    · rw [if_neg h1] at h
      by_cases h2 : ¬ P.atl03_cnf (cnf + SIGNAL_CONF_OFFSET)
      · rw [if_pos h2] at h; cases h
      · rw [if_neg h2] at h
        split at h
        · cases h
        · rename_i q hq
          by_cases h3 : q < QUALITY_NOMINAL ∨ QUALITY_POSSIBLE_TEP < q
          · rw [if_pos h3] at h; cases h
          · rw [if_neg h3] at h
            by_cases h4 : ¬ P.quality_ph q
            · rw [if_pos h4] at h; cases h
            · rw [if_neg h4] at h
              refine ⟨⟨cnf, hcnf, by simpa using h2⟩,
                ⟨q, hq, by simpa using h4⟩, ?_⟩
              split at h
              · rename_i cls hcls
                split at h
                · cases h
                · rename_i c hg
                  by_cases h5 : (c : Int) < 0 ∨ NUM_ATL08_CLASSES ≤ (c : Int)
                  · rw [if_pos h5] at h; cases h
                  · rw [if_neg h5] at h
                    by_cases h6 : ¬ P.atl08_class c
                    · rw [if_pos h6] at h; cases h
                    · rw [if_neg h6] at h
                      have hy := yapcCheck_accepted P d ph seg h
                      refine ⟨?_, hy.1, hy.2⟩
                      intro cls' hcls'
                      rw [hcls] at hcls'
                      obtain rfl : cls = cls' := Option.some_inj.mp hcls'
                      exact ⟨c, hg, by simpa using h6⟩
              · rename_i hnone
                have hy := yapcCheck_accepted P d ph seg h
                refine ⟨?_, hy.1, hy.2⟩
                intro cls' hcls'
                rw [hnone] at hcls'
                cases hcls'

theorem advancePhoton_fields (d : ExtentData) (st : LoopState)
    (cs cc ph : Nat) :
    (advancePhoton d st cs cc ph).extent_photons = st.extent_photons ∧
    (advancePhoton d st cs cc ph).current_segment = cs := by
  unfold advancePhoton
  by_cases h : d.dist_ph_along.length ≤ ph + 1
  · rw [if_pos h]; exact ⟨rfl, rfl⟩
  · rw [if_neg h]; exact ⟨rfl, rfl⟩

theorem extentIter_photons (P : ExtentParms) (d : ExtentData)
    (st st' : LoopState) (h : extentIter P d st = .ok st') :
    st'.extent_photons = st.extent_photons ∨
    (st'.extent_photons =
        st.extent_photons ++ [(st.current_photon, st'.current_segment)] ∧
      photonAccepted P.toFilterParms d.toPhotonArrays st.current_photon
        st'.current_segment) := by
  simp only [extentIter] at h
  split at h
  · cases h
    exact Or.inl rfl
  · split at h
    · rename_i sdx dpa hsds hdpa
      split at h
      · split at h
        · cases h
        · rename_i keep hchk
          cases keep with
          | false =>
            rw [if_neg (by simp)] at h
            cases h
            exact Or.inl (by
              rcases advancePhoton_fields d _ _ _ _ with ⟨he, _⟩
              rw [he]
              split <;> rfl)
          | true =>
            rw [if_pos (by simp)] at h
            cases h
            obtain ⟨he, hc⟩ := advancePhoton_fields d _ _ _ _
            refine Or.inr ⟨?_, ?_⟩
            · rw [he, hc]
              split <;> rfl
            · rw [hc]
              exact photonChecks_accepted _ _ _ _ hchk
      · cases h
        exact Or.inl (by
          rcases advancePhoton_fields d _ _ _ _ with ⟨he, _⟩
          rw [he]
          split <;> rfl)
    · cases h

theorem extentLoop_filter (P : ExtentParms) (d : ExtentData) :
    ∀ (fuel : Nat) (st st' : LoopState),
      extentLoop P d fuel st = .ok st' →
      ∀ pr, pr ∈ st'.extent_photons →
        pr ∈ st.extent_photons ∨
        photonAccepted P.toFilterParms d.toPhotonArrays pr.1 pr.2 := by
  intro fuel
  induction fuel with
  | zero =>
    intro st st' h pr hpr
    cases h
    exact Or.inl hpr
  | succ fuel ih =>
    intro st st' h pr hpr
    rw [extentLoop] at h
    by_cases hcomp : st.extent_complete = true ∧ st.step_complete = true
    · rw [if_pos hcomp] at h
      cases h
      exact Or.inl hpr
    · rw [if_neg hcomp] at h
      split at h
      · cases h
      · rename_i st1 hiter
        have hstep := extentIter_photons P d st st1 hiter
        by_cases htc : st1.track_complete = true
        · rw [if_pos htc] at h
          cases h
          rcases hstep with he | ⟨he, hacc⟩
          · rw [he] at hpr
            exact Or.inl hpr
          · rw [he] at hpr
            rcases List.mem_append.mp hpr with hl | hr
            · exact Or.inl hl
            · right
              have hpr2 : pr = (st.current_photon, st'.current_segment) := by
                simpa using hr
              rw [hpr2]
              exact hacc
        · rw [if_neg htc] at h
          rcases ih st1 st' h pr hpr with h1 | h1
          · rcases hstep with he | ⟨he, hacc⟩
            · rw [he] at h1
              exact Or.inl h1
            · rw [he] at h1
              rcases List.mem_append.mp h1 with hl | hr
              · exact Or.inl hl
              · right
                have hpr2 : pr = (st.current_photon, st1.current_segment) := by
                  simpa using hr
                rw [hpr2]
                exact hacc
          · exact Or.inr h1

/-- C2: filter conservation.  Every photon recorded in an extent by the
inner photon loop passes all acceptance tables: the confidence table at
`cnf + SIGNAL_CONF_OFFSET`, the quality table, the ATL08 class table when
the ATL08 stage ran, the YAPC score threshold when YAPC ran, and — under
raster cropping — the inclusion-mask bit of the photon's segment. -/
theorem extent_filter_conservation (P : ExtentParms) (d : ExtentData)
    (fuel : Nat) (st st' : LoopState) (hinit : st.extent_photons = [])
    (h : extentLoop P d fuel st = .ok st') :
    ∀ pr ∈ st'.extent_photons,
      photonAccepted P.toFilterParms d.toPhotonArrays pr.1 pr.2 := by
  intro pr hpr
  rcases extentLoop_filter P d fuel st st' h pr hpr with hl | hr
  · rw [hinit] at hl
    cases hl
  · exact hr

/-- Witness for C2 on a one-segment, one-photon run with every table
accepting: the loop emits photon 0 of segment 0 and that photon satisfies
the acceptance predicate. -/
theorem extent_filter_conservation_witness :
    extentLoop
        ⟨⟨fun _ => true, fun _ => true, fun _ => true, 0⟩, false, 20, 20⟩
        ⟨⟨[4], [0], none, none, none⟩, [1], [0], [0]⟩ 2
        ⟨0, 0, 0, 0, 0, 0, 0, 0, false, false, false, []⟩ =
      .ok ⟨1, 0, 1, 0, 0, 0, 0, 0, false, false, true, [(0, 0)]⟩ ∧
    photonAccepted ⟨fun _ => true, fun _ => true, fun _ => true, 0⟩
      ⟨[4], [0], none, none, none⟩ 0 0 := by
  have heval : extentLoop
      ⟨⟨fun _ => true, fun _ => true, fun _ => true, 0⟩, false, 20, 20⟩
      ⟨⟨[4], [0], none, none, none⟩, [1], [0], [0]⟩ 2
      ⟨0, 0, 0, 0, 0, 0, 0, 0, false, false, false, []⟩ =
      .ok ⟨1, 0, 1, 0, 0, 0, 0, 0, false, false, true, [(0, 0)]⟩ := by
    norm_num [extentLoop, extentIter, gotoSegment, advancePhoton,
      photonChecks, yapcCheck, regionCheck, CNF_POSSIBLE_TEP,
      CNF_SURFACE_HIGH, SIGNAL_CONF_OFFSET, QUALITY_NOMINAL,
      QUALITY_POSSIBLE_TEP]
  refine ⟨heval, ?_⟩
  have h := extent_filter_conservation
    ⟨⟨fun _ => true, fun _ => true, fun _ => true, 0⟩, false, 20, 20⟩
    ⟨⟨[4], [0], none, none, none⟩, [1], [0], [0]⟩ 2
    ⟨0, 0, 0, 0, 0, 0, 0, 0, false, false, false, []⟩
    ⟨1, 0, 1, 0, 0, 0, 0, 0, false, false, true, [(0, 0)]⟩ rfl heval
    (0, 0) (by simp)
  exact h

/-! ## Sequential range checks -/

/-- C9 counterexample: the photon below has quality value 99, far outside
[`QUALITY_NOMINAL`, `QUALITY_POSSIBLE_TEP`], and is examined by the extent
state machine (it lies within the extent's length), yet the inner loop
completes without any beam-fatal error: the photon's signal confidence 0
is rejected by the confidence table, which `break`s out of the filter
before the quality range check runs.  An out-of-range quality value in the
photon data is therefore not always fatal for the beam. -/
theorem photon_range_check_counterexample :
    ((99 : Int) < QUALITY_NOMINAL ∨ QUALITY_POSSIBLE_TEP < (99 : Int)) ∧
    extentLoop
        ⟨⟨fun _ => false, fun _ => true, fun _ => true, 0⟩, false, 20, 20⟩
        ⟨⟨[0], [99], none, none, none⟩, [1], [0], [0]⟩ 2
        ⟨0, 0, 0, 0, 0, 0, 0, 0, false, false, false, []⟩ =
      .ok ⟨1, 0, 1, 0, 0, 0, 0, 0, false, false, true, []⟩ := by
  constructor
  · right
    norm_num [QUALITY_POSSIBLE_TEP]
  · norm_num [extentLoop, extentIter, gotoSegment, advancePhoton,
      photonChecks, yapcCheck, regionCheck, CNF_POSSIBLE_TEP,
      CNF_SURFACE_HIGH, SIGNAL_CONF_OFFSET, QUALITY_NOMINAL,
      QUALITY_POSSIBLE_TEP]

/-- C9 (amended): the range checks of the photon filter are sequential and
short-circuit on table rejection.  An out-of-range signal confidence at a
photon reaching the filter is always fatal; an out-of-range quality is
fatal exactly when the confidence was accepted by its table; an
out-of-range ATL08 class is fatal exactly when both confidence and quality
were accepted and the ATL08 stage ran. -/
theorem photon_range_checks_sequential (P : FilterParms) (d : PhotonArrays)
    (ph seg : Nat) :
    (∀ cnf, d.signal_conf_ph.get? ph = some cnf →
      (cnf < CNF_POSSIBLE_TEP ∨ CNF_SURFACE_HIGH < cnf) →
      photonChecks P d ph seg = .error .badSignalConf) ∧
    (∀ cnf q, d.signal_conf_ph.get? ph = some cnf →
      ¬ (cnf < CNF_POSSIBLE_TEP ∨ CNF_SURFACE_HIGH < cnf) →
      P.atl03_cnf (cnf + SIGNAL_CONF_OFFSET) = true →
      d.quality_arr.get? ph = some q →
      (q < QUALITY_NOMINAL ∨ QUALITY_POSSIBLE_TEP < q) →
      photonChecks P d ph seg = .error .badQuality) ∧
    (∀ cnf q cls c, d.signal_conf_ph.get? ph = some cnf →
      ¬ (cnf < CNF_POSSIBLE_TEP ∨ CNF_SURFACE_HIGH < cnf) →
      P.atl03_cnf (cnf + SIGNAL_CONF_OFFSET) = true →
      d.quality_arr.get? ph = some q →
      ¬ (q < QUALITY_NOMINAL ∨ QUALITY_POSSIBLE_TEP < q) →
      P.quality_ph q = true →
      d.atl08_cls = some cls → cls.get? ph = some c →
      ((c : Int) < 0 ∨ NUM_ATL08_CLASSES ≤ (c : Int)) →
      photonChecks P d ph seg = .error .badAtl08Class) := by
  refine ⟨?_, ?_, ?_⟩
  · intro cnf hcnf hout
    unfold photonChecks
    split
    · rename_i hnone
      rw [hcnf] at hnone
      cases hnone
    · rename_i cnf' hsome
      rw [hcnf] at hsome
      obtain rfl : cnf = cnf' := Option.some_inj.mp hsome
      rw [if_pos hout]
  · intro cnf q hcnf hin htbl hq hout
    unfold photonChecks
    split
    · rename_i hnone
      rw [hcnf] at hnone
      cases hnone
    · rename_i cnf' hsome
      rw [hcnf] at hsome
      obtain rfl : cnf = cnf' := Option.some_inj.mp hsome
      rw [if_neg hin, if_neg (by simp [htbl])]
      split
      · rename_i hnone
        rw [hq] at hnone
        cases hnone
      · rename_i q' hsome2
        rw [hq] at hsome2
        obtain rfl : q = q' := Option.some_inj.mp hsome2
        rw [if_pos hout]
  · intro cnf q cls c hcnf hin htbl hq hqin hqtbl hcls hg hout
    unfold photonChecks
    split
    · rename_i hnone
      rw [hcnf] at hnone
      cases hnone
    · rename_i cnf' hsome
      rw [hcnf] at hsome
      obtain rfl : cnf = cnf' := Option.some_inj.mp hsome
      rw [if_neg hin, if_neg (by simp [htbl])]
      split
      · rename_i hnone
        rw [hq] at hnone
        cases hnone
      · rename_i q' hsome2
        rw [hq] at hsome2
        obtain rfl : q = q' := Option.some_inj.mp hsome2
        rw [if_neg hqin, if_neg (by simp [hqtbl])]
        split
        · rename_i cls' hsome3
          rw [hcls] at hsome3
          obtain rfl : cls = cls' := Option.some_inj.mp hsome3
          split
          · rename_i hnone
            rw [hg] at hnone
            cases hnone
          · rename_i c' hsome4
            rw [hg] at hsome4
            obtain rfl : c = c' := Option.some_inj.mp hsome4
            rw [if_pos hout]
        · rename_i hnone
          rw [hcls] at hnone
          cases hnone

/-- Witness for C9's amended theorem: an out-of-range confidence value 9
is fatal at the first check. -/
theorem photon_range_checks_sequential_witness :
    photonChecks ⟨fun _ => true, fun _ => true, fun _ => true, 0⟩
      ⟨[9], [0], none, none, none⟩ 0 0 = .error .badSignalConf := by
  exact (photon_range_checks_sequential
    ⟨fun _ => true, fun _ => true, fun _ => true, 0⟩
    ⟨[9], [0], none, none, none⟩ 0 0).1 9 rfl
    (by norm_num [CNF_POSSIBLE_TEP, CNF_SURFACE_HIGH])

/-! ## ABoVE reclassifier solar-elevation indexing -/

/-- C7: the ABoVE reclassifier reads
`atl03.solar_elevation[atl03_segment]` (Atl03Reader.cpp:737), where
`atl03_segment = segment_id[atl03_segment_index]` is the segment *id*,
not the segment index; `solar_elevation` was read with the crop window of
`num_segments` entries, so any realistic segment id makes this read out of
bounds.  At this failing input — one cropped segment with id 100, solar
elevation 10° at that segment, a matched ATL08 row of class 1, spot 1,
confidence `CNF_SURFACE_HIGH` and relief 1 — the claim says class 1 is
kept (solar elevation 10 > 5 means no reclassification), but the code
reads `solar_elevation[100]` out of bounds: the embedded classifier
aborts with an out-of-bounds error. -/
theorem above_solar_indexing_bug :
    classify
      ⟨true, false, true, 1, 0, fun _ _ _ => 1⟩
      ⟨[100], [1], [0], [10], [4], [⟨100, 1, 1, 1⟩], [⟨100, 0, 0⟩]⟩ =
      .error .oob ∧
    (5 : ℚ) < 10 := by
  constructor
  · decide
  · norm_num

/-! ## ATL08 classifier join -/

theorem rowLt_trans (a b c : Atl08Row) (h1 : rowLt a b) (h2 : rowLt b c) :
    rowLt a c := by
  unfold rowLt at *
  omega

theorem keyLt_of_rowLt_keyLe (x r : Atl08Row) (g c : Int)
    (h1 : rowLt x r) (h2 : keyLt r g c) : keyLt x g c := by
  unfold rowLt at h1
  unfold keyLt at *
  omega

theorem keyLt_mono (x : Atl08Row) (g c g' c' : Int) (h : keyLt x g c)
    (hg : g ≤ g') (hc : g = g' → c ≤ c') : keyLt x g' c' := by
  unfold keyLt at *
  rcases h with h | ⟨h1, h2⟩
  · omega
  · by_cases he : g = g'
    · have := hc he
      omega
    · omega

theorem dropWhile_head_not (p : Atl08Row → Bool) (l : List Atl08Row)
    (r : Atl08Row) (rest : List Atl08Row) (h : l.dropWhile p = r :: rest) :
    p r = false := by
  induction l with
  | nil => cases h
  | cons x xs ih =>
    rw [List.dropWhile_cons] at h
    by_cases hp : p x = true
    · rw [if_pos hp] at h
      exact ih h
    · rw [if_neg hp] at h
      have hx : x = r := (List.cons.injEq x xs r rest ▸ h).1
      subst hx
      simpa using hp

theorem keyLt_not_key (x : Atl08Row) (g c : Int) (h : keyLt x g c) :
    ¬ (x.seg = g ∧ x.indx = c) := by
  unfold keyLt at h
  intro hxe
  obtain ⟨h1, h2⟩ := hxe
  omega

theorem matchFlag_none (rows : List Atl08Row) (g c : Int)
    (h : ∀ x ∈ rows, ¬ (x.seg = g ∧ x.indx = c)) :
    matchFlag rows g c = ATL08_UNCLASSIFIED := by
  unfold matchFlag
  have hf : rows.find? (fun r => decide (r.seg = g) && decide (r.indx = c))
      = none := by
    rw [List.find?_eq_none]
    intro x hx
    simpa using h x hx
  rw [hf]

theorem find?_key_append (pre rest : List Atl08Row) (r : Atl08Row) (g c : Int)
    (hpre : ∀ x ∈ pre, ¬ (x.seg = g ∧ x.indx = c))
    (hseg : r.seg = g) (hindx : r.indx = c) :
    (pre ++ r :: rest).find?
      (fun r => decide (r.seg = g) && decide (r.indx = c)) = some r := by
  induction pre with
  | nil =>
    rw [List.nil_append, List.find?_cons_of_pos rest (by simp [hseg, hindx])]
  | cons x xs ih =>
    rw [List.cons_append, List.find?_cons_of_neg _
      (by simpa using hpre x (List.mem_cons_self x xs))]
    exact ih (fun y hy => hpre y (List.mem_cons_of_mem x hy))

theorem matchFlag_found (pre rest : List Atl08Row) (r : Atl08Row) (g c : Int)
    (hpre : ∀ x ∈ pre, ¬ (x.seg = g ∧ x.indx = c))
    (hseg : r.seg = g) (hindx : r.indx = c) :
    matchFlag (pre ++ r :: rest) g c = r.flag := by
  unfold matchFlag
  rw [find?_key_append pre rest r g c hpre hseg hindx]

theorem sorted_dropWhile_ge (g : Int) (rows : List Atl08Row)
    (hs : rows.Pairwise rowLt) :
    ∀ x ∈ rows.dropWhile (fun r => r.seg < g), ¬ x.seg < g := by
  induction rows with
  | nil => intro x hx; simp [List.dropWhile] at hx
  | cons a l ih =>
    rw [List.dropWhile_cons]
    by_cases hp : a.seg < g
    · rw [if_pos (by simpa using hp)]
      exact ih ((List.pairwise_cons.mp hs).2)
    · rw [if_neg (by simpa using hp)]
      intro x hx
      rcases List.mem_cons.mp hx with rfl | hx'
      · exact hp
      · have hlt := (List.pairwise_cons.mp hs).1 x hx'
        unfold rowLt at hlt
        omega

theorem cursor_advance (g c : Int) (rows : List Atl08Row)
    (hs : rows.Pairwise rowLt) :
    ∃ mid,
      rows = mid ++ (rows.dropWhile (fun r => r.seg < g)).dropWhile
          (fun r => r.seg = g ∧ r.indx < c) ∧
      (∀ x ∈ mid, keyLt x g c) ∧
      ((rows.dropWhile (fun r => r.seg < g)).dropWhile
          (fun r => r.seg = g ∧ r.indx < c)).Pairwise rowLt ∧
      ∀ r rest,
        (rows.dropWhile (fun r => r.seg < g)).dropWhile
            (fun r => r.seg = g ∧ r.indx < c) = r :: rest →
        ¬ keyLt r g c := by
  refine ⟨rows.takeWhile (fun r => r.seg < g) ++
    (rows.dropWhile (fun r => r.seg < g)).takeWhile
      (fun r => r.seg = g ∧ r.indx < c), ?_, ?_, ?_, ?_⟩
  · rw [List.append_assoc, List.takeWhile_append_dropWhile,
      List.takeWhile_append_dropWhile]
  · intro x hx
    unfold keyLt
    rcases List.mem_append.mp hx with hx1 | hx2
    · have h1 := List.mem_takeWhile_imp hx1
      simp only [decide_eq_true_eq] at h1
      exact Or.inl h1
    · have h2 := List.mem_takeWhile_imp hx2
      simp only [decide_eq_true_eq] at h2
      exact Or.inr h2
  · exact (hs.sublist (List.dropWhile_sublist _)).sublist
      (List.dropWhile_sublist _)
  · intro r rest hr hk
    have hp2 := dropWhile_head_not _ _ _ _ hr
    have hnotp2 : ¬ (r.seg = g ∧ r.indx < c) := by simpa using hp2
    have hrmem1 : r ∈ rows.dropWhile (fun r => r.seg < g) := by
      have hmem : r ∈ r :: rest := List.mem_cons_self r rest
      rw [← hr] at hmem
      exact (List.dropWhile_sublist _).subset hmem
    have hge := sorted_dropWhile_ge g rows hs r hrmem1
    unfold keyLt at hk
    rcases hk with h | h
    · exact hge h
    · exact hnotp2 h

theorem classifyPhoton_spec (P : ClassifyParms) (d : ClassifyData)
    (g c : Int) (st : ClassifyState) (pre : List Atl08Row)
    (hph : P.phoreal = false)
    (hrs : d.rows.Pairwise rowLt)
    (hsplit : d.rows = pre ++ st.rows)
    (hpre : ∀ x ∈ pre, keyLt x g c) :
    ∃ st', classifyPhoton P d g c st = .ok st' ∧
      st'.cls = st.cls ++ [matchFlag d.rows g c] ∧
      ∃ pre', d.rows = pre' ++ st'.rows ∧ ∀ x ∈ pre', keyLt x g (c + 1) := by
  have hsst : st.rows.Pairwise rowLt := by
    rw [hsplit] at hrs
    exact (List.pairwise_append.mp hrs).2.1
  obtain ⟨mid, hmid, hmidlt, hsorted2, hhead⟩ := cursor_advance g c st.rows hsst
  cases hrows2 : (st.rows.dropWhile (fun r => r.seg < g)).dropWhile
      (fun r => r.seg = g ∧ r.indx < c) with
  | nil =>
    refine ⟨{ st with rows := [], cls := st.cls ++ [ATL08_UNCLASSIFIED], atl03_photon := st.atl03_photon + 1 }, ?_, ?_, ?_⟩
    · unfold classifyPhoton
      simp only [hrows2]
    · have hrows : d.rows = pre ++ mid := by
        rw [hsplit, hmid, hrows2, List.append_nil]
      have hflag : matchFlag d.rows g c = ATL08_UNCLASSIFIED := by
        apply matchFlag_none
        intro x hx
        rw [hrows] at hx
        rcases List.mem_append.mp hx with hx | hx
        · exact keyLt_not_key x g c (hpre x hx)
        · exact keyLt_not_key x g c (hmidlt x hx)
      rw [hflag]
    · refine ⟨pre ++ mid, ?_, ?_⟩
      · rw [hsplit, hmid, hrows2]
        simp
      · intro x hx
        rcases List.mem_append.mp hx with hx | hx
        · exact keyLt_mono x g c g (c + 1) (hpre x hx) le_rfl
            (fun _ => by omega)
        · exact keyLt_mono x g c g (c + 1) (hmidlt x hx) le_rfl
            (fun _ => by omega)
  | cons r rest =>
    have hnotlt : ¬ keyLt r g c := hhead r rest hrows2
    rw [hrows2] at hsorted2
    have hrows : d.rows = (pre ++ mid) ++ r :: rest := by
      rw [hsplit, hmid, hrows2, List.append_assoc]
    have hfrontlt : ∀ x ∈ pre ++ mid, keyLt x g c := by
      intro x hx
      rcases List.mem_append.mp hx with hx | hx
      · exact hpre x hx
      · exact hmidlt x hx
    by_cases hm : r.seg = g ∧ r.indx = c
    · refine ⟨{ st with rows := rest, cls := st.cls ++ [r.flag], atl03_photon := st.atl03_photon + 1 }, ?_, ?_, ?_⟩
      · unfold classifyPhoton
        simp only [hrows2]
        rw [if_pos hm, if_neg (by simp [hph])]
      · have hflag : matchFlag d.rows g c = r.flag := by
          rw [hrows]
          exact matchFlag_found (pre ++ mid) rest r g c
            (fun x hx => keyLt_not_key x g c (hfrontlt x hx)) hm.1 hm.2
        rw [hflag]
      · refine ⟨(pre ++ mid) ++ [r], ?_, ?_⟩
        · rw [hrows]
          simp [List.append_assoc]
        · intro x hx
          rcases List.mem_append.mp hx with hx | hx
          · exact keyLt_mono x g c g (c + 1) (hfrontlt x hx) le_rfl
              (fun _ => by omega)
          · have hxr : x = r := by simpa using hx
            subst hxr
            obtain ⟨h1, h2⟩ := hm
            unfold keyLt
            omega
    · refine ⟨{ st with rows := r :: rest, cls := st.cls ++ [ATL08_UNCLASSIFIED], atl03_photon := st.atl03_photon + 1 }, ?_, ?_, ?_⟩
      · unfold classifyPhoton
        simp only [hrows2]
        rw [if_neg hm]
      · have hflag : matchFlag d.rows g c = ATL08_UNCLASSIFIED := by
          apply matchFlag_none
          intro x hx
          rw [hrows] at hx
          rcases List.mem_append.mp hx with hx | hx
          · exact keyLt_not_key x g c (hfrontlt x hx)
          · rcases List.mem_cons.mp hx with rfl | hx'
            · exact hm
            · intro hxe
              apply hnotlt
              have hrx := (List.pairwise_cons.mp hsorted2).1 x hx'
              unfold rowLt at hrx
              obtain ⟨h1, h2⟩ := hxe
              unfold keyLt
              omega
        rw [hflag]
      · refine ⟨pre ++ mid, ?_, ?_⟩
        · rw [hrows]
        · intro x hx
          rcases List.mem_append.mp hx with hx | hx
          · exact keyLt_mono x g c g (c + 1) (hpre x hx) le_rfl
              (fun _ => by omega)
          · exact keyLt_mono x g c g (c + 1) (hmidlt x hx) le_rfl
              (fun _ => by omega)

theorem classifyCounts_spec (P : ClassifyParms) (d : ClassifyData)
    (g : Int) (hph : P.phoreal = false) (hrs : d.rows.Pairwise rowLt) :
    ∀ (k : Nat) (c : Int) (st : ClassifyState) (pre : List Atl08Row),
      d.rows = pre ++ st.rows →
      (∀ x ∈ pre, keyLt x g c) →
      ∃ st', classifyCounts P d g c k st = .ok st' ∧
        st'.cls = st.cls ++ matchFlags d.rows g c k ∧
        ∃ pre', d.rows = pre' ++ st'.rows ∧
          ∀ x ∈ pre', keyLt x g (c + (k : Int)) := by
  intro k
  induction k with
  | zero =>
    intro c st pre hsplit hpre
    refine ⟨st, rfl, by simp [matchFlags], pre, hsplit, ?_⟩
    intro x hx
    simpa using hpre x hx
  | succ k ihk =>
    intro c st pre hsplit hpre
    obtain ⟨st1, heq1, hcls1, pre1, hs1, hp1⟩ :=
      classifyPhoton_spec P d g c st pre hph hrs hsplit hpre
    obtain ⟨st2, heq2, hcls2, pre2, hs2, hp2⟩ := ihk (c + 1) st1 pre1 hs1 hp1
    refine ⟨st2, ?_, ?_, pre2, hs2, ?_⟩
    · simp only [classifyCounts, heq1]
      exact heq2
    · rw [hcls2, hcls1]
      simp [matchFlags, List.append_assoc]
    · intro x hx
      have h := hp2 x hx
      have harith : c + 1 + (k : Int) = c + ((k : Int) + 1) := by ring
      rw [harith] at h
      push_cast
      exact h

theorem classifySegs_spec (P : ClassifyParms) (d : ClassifyData)
    (hph : P.phoreal = false) (hrs : d.rows.Pairwise rowLt) :
    ∀ (gs : List Int) (cs : List Nat) (st : ClassifyState)
      (pre : List Atl08Row),
      gs.Pairwise (fun a b => a < b) →
      gs.length ≤ cs.length →
      d.rows = pre ++ st.rows →
      (∀ x ∈ pre, ∀ g' ∈ gs, x.seg < g') →
      ∃ st', classifySegs P d gs cs st = .ok st' ∧
        st'.cls = st.cls ++ joinSpec d.rows gs cs := by
  intro gs
  induction gs with
  | nil =>
    intro cs st pre _ _ _ _
    exact ⟨st, rfl, by simp [joinSpec]⟩
  | cons g gs' ih =>
    intro cs st pre hpair hlen hsplit hpre
    cases cs with
    | nil => simp at hlen
    | cons cnt cs' =>
      have hfront : ∀ x ∈ pre, keyLt x g 1 := by
        intro x hx
        unfold keyLt
        exact Or.inl (hpre x hx g (List.mem_cons_self g gs'))
      obtain ⟨l1, hl1⟩ : ∃ l1,
          (if P.phoreal ∨ P.ancillary then
            { st with land := st.land.dropWhile (fun lr => lr.beg + NUM_ATL03_SEGS_IN_ATL08_SEG ≤ g) }
          else st) = { st with land := l1 } := by
        split
        · exact ⟨_, rfl⟩
        · exact ⟨st.land, rfl⟩
      obtain ⟨st2, heq2, hcls2, pre2, hsplit2, hpre2⟩ :=
        classifyCounts_spec P d g hph hrs cnt 1 { st with land := l1 } pre
          hsplit hfront
      obtain ⟨st3, heq3, hcls3⟩ := ih cs' st2 pre2
        (List.pairwise_cons.mp hpair).2
        (by simp only [List.length_cons] at hlen; omega)
        hsplit2
        (by
          intro x hx g' hg'
          have h1 := hpre2 x hx
          have h2 := (List.pairwise_cons.mp hpair).1 g' hg'
          unfold keyLt at h1
          omega)
      refine ⟨st3, ?_, ?_⟩
      · simp only [classifySegs, hl1, heq2]
        exact heq3
      · rw [hcls3, hcls2]
        show (st.cls ++ matchFlags d.rows g 1 cnt) ++ joinSpec d.rows gs' cs'
          = st.cls ++ joinSpec d.rows (g :: gs') (cnt :: cs')
        simp only [joinSpec, List.append_assoc]

/-- **C3.**  With PhoREAL off and the ATL08 inputs well-formed — signal
photons sorted by `(ph_segment_id, classed_pc_indx)`, ATL03 segment ids
strictly increasing, `segment_ph_cnt` at least as long as `segment_id` —
`classify` succeeds and produces, for every ATL03 photon in photon order,
exactly the `classed_pc_flag` of the unique ATL08 row whose
`(ph_segment_id, classed_pc_indx)` equals the photon's
`(segment id, 1-based in-segment index)`, and `ATL08_UNCLASSIFIED` when no
row matches: the two-pointer cursor walk of Atl03Reader.cpp:704-730 is the
relational join `joinSpec`.  Concretely, segment 100 with 3 photons
against rows `(100,1)↦1` and `(100,3)↦3` classifies as `[1, 0, 3]`. -/
theorem atl08_join_correct :
    (∀ (P : ClassifyParms) (d : ClassifyData),
      P.phoreal = false →
      d.rows.Pairwise rowLt →
      d.segment_id.Pairwise (fun a b => a < b) →
      d.segment_id.length ≤ d.segment_ph_cnt.length →
      classify P d = .ok (joinSpec d.rows d.segment_id d.segment_ph_cnt)) ∧
    classify ⟨false, false, false, 1, 0, fun _ _ _ => 1⟩
        ⟨[100], [3], [0], [0], [4, 4, 4], [⟨100, 1, 1, 0⟩, ⟨100, 3, 3, 0⟩], []⟩ =
      .ok [1, 0, 3] := by
  constructor
  · intro P d hph hrs hseg hlen
    obtain ⟨st', heq, hcls⟩ := classifySegs_spec P d hph hrs d.segment_id
      d.segment_ph_cnt ⟨0, d.rows, d.land, []⟩ [] hseg hlen rfl
      (by intro x hx; cases hx)
    unfold classify
    simp only [heq]
    rw [hcls]
    simp
  · decide

theorem atl08_join_correct_witness :
    classify ⟨false, false, false, 1, 0, fun _ _ _ => 1⟩
        ⟨[100], [3], [0], [0], [4, 4, 4], [⟨100, 1, 1, 0⟩, ⟨100, 3, 3, 0⟩], []⟩ =
      .ok (joinSpec [⟨100, 1, 1, 0⟩, ⟨100, 3, 3, 0⟩] [100] [3]) ∧
    joinSpec [⟨100, 1, 1, 0⟩, ⟨100, 3, 3, 0⟩] [100] [3] = [1, 0, 3] := by
  refine ⟨atl08_join_correct.1 _ _ rfl ?_ ?_ ?_, ?_⟩
  · simp [List.pairwise_cons, rowLt]
  · simp [List.pairwise_cons]
  · decide
  · decide

end Atl03
